import Mathlib

/-!
# gedis: wire codec, store and command dispatcher

A shallow embedding of the server side of `gedis` (`gedis-server/resp.go`,
`gedis-server/store.go`, `gedis-server/main.go`) and of the request encoder of
the client (`gedis-client/client.go`, `doCommand`).

Conventions of the embedding:

* a Go `string` / `[]byte` is a list of bytes, a byte is a `Fin 256`;
* a `bufio.Reader` over a connection is the list of bytes that are still
  unread; the end of the list is the end of the stream, and a read never fails
  for another reason than the end of the stream;
* a `time.Time` is an integer count of nanoseconds, a `time.Duration` is an
  integer count of nanoseconds in the `int64` range, and `time.Now()` is an
  explicit argument `now` of every operation that reads the clock;
* an allocation (`make`) that fails ends the process: `readArrayAlloc`,
  `readBulkStringAlloc` and `connStep` take the room left for allocations as
  an argument, and `readArray`, `readBulkString` are the same functions when
  the allocations succeed (`readArrayAlloc_agrees`);
* a Go `map[string]T` is an association list; the order of the list stands for
  the (unspecified) iteration order of the map;
* the lock of the store is not modelled: every operation runs alone, except
  in `Store.raceGet`, where the two lock-protected sections of `Get` are run
  around the section of one writer.
-/

namespace Gedis

/-! ## Bytes and strings -/

abbrev Byte := Fin 256

abbrev Bytes := List Byte

/-- The bytes of an ASCII string constant of the source. -/
def lit (s : String) : Bytes := s.toList.map (fun c => Fin.ofNat c.toNat)

/-- The two bytes `\r\n`. -/
def CRLF : Bytes := [13, 10]

/-! ## `strconv` -/

/-- The ASCII digit of `d % 10`. -/
def digitByte (d : Nat) : Byte := Fin.ofNat (48 + d % 10)

/-- Decimal digits of `n`, most significant first; `fuel` bounds the number of
digits produced. -/
def natDigits : Nat → Nat → Bytes
  | 0, _ => []
  | fuel + 1, n =>
    if n < 10 then [digitByte n] else natDigits fuel (n / 10) ++ [digitByte n]

/-- Decimal text of a natural number (`strconv.Itoa` on a non-negative `int`). -/
def formatNat (n : Nat) : Bytes := natDigits (n + 1) n

/-- `strconv.FormatInt(n, 10)` and `strconv.Itoa(n)`. -/
def FormatInt (n : Int) : Bytes :=
  if n < 0 then (45 : Byte) :: formatNat n.natAbs else formatNat n.natAbs

/-- Value of a run of ASCII digits read after the accumulator `acc`; `none` as
soon as a byte is not a digit. -/
def parseDigits : Nat → Bytes → Option Nat
  | acc, [] => some acc
  | acc, c :: r =>
    if 48 ≤ c.val ∧ c.val ≤ 57 then parseDigits (acc * 10 + (c.val - 48)) r else none

/-- `strconv.Atoi` on a 64-bit platform: an optional sign, then one or more
decimal digits, with a value in the `int64` range; everything else is an
error (`none`). -/
def Atoi (s : Bytes) : Option Int :=
  match s with
  | [] => none
  | c :: r =>
    let neg := decide (c = 45)
    let ds := if c = 45 ∨ c = 43 then r else s
    if ds = [] then none
    else
      match parseDigits 0 ds with
      | none => none
      | some n =>
        if neg then (if n ≤ 2 ^ 63 then some (-(n : Int)) else none)
        else (if n < 2 ^ 63 then some (n : Int) else none)

/-! ## `strings` -/

/-- `strings.TrimSuffix`. -/
def TrimSuffix (s suffix : Bytes) : Bytes :=
  if suffix.isSuffixOf s then s.take (s.length - suffix.length) else s

/-- Upper-case form of one ASCII byte. -/
def upperByte (c : Byte) : Byte :=
  if 97 ≤ c.val ∧ c.val ≤ 122 then c - 32 else c

/-- `strings.ToUpper`: a string made of ASCII bytes only has its letters
`a`..`z` mapped to `A`..`Z`; any other string goes through the Unicode
mapping of the library, which is the argument `unicodeUpper`. -/
def ToUpper (unicodeUpper : Bytes → Bytes) (s : Bytes) : Bytes :=
  if s.all (fun c => decide (c.val < 128)) then s.map upperByte else unicodeUpper s

/-! ## `fmt` -/

/-- The verb `%c` applied to a byte: the UTF-8 encoding of the code point with
that number (one byte below 128, two bytes from 128 on). -/
def fmtC (b : Byte) : Bytes :=
  if b.val < 128 then [b] else [Fin.ofNat (192 + b.val / 64), Fin.ofNat (128 + b.val % 64)]

/-! ## Errors and the reader -/

/-- The error values `readArray` can return. -/
inductive RErr where
  /-- The value `io.EOF`. -/
  | eof
  /-- The value `io.ErrUnexpectedEOF`. -/
  | unexpectedEOF
  /-- An error built by `errors.New` or `fmt.Errorf` with this text. -/
  | msg (text : Bytes)
  deriving DecidableEq, Repr

/-- The method `Error()` of an error value. -/
def RErr.Error : RErr → Bytes
  | .eof => lit "EOF"
  | .unexpectedEOF => lit "unexpected EOF"
  | .msg t => t

instance instDecidableEqExcept (ε α : Type) [DecidableEq ε] [DecidableEq α] :
    DecidableEq (Except ε α)
  | .ok a, .ok b => if h : a = b then isTrue (by rw [h]) else isFalse (fun e => h (by cases e; rfl))
  | .error a, .error b =>
    if h : a = b then isTrue (by rw [h]) else isFalse (fun e => h (by cases e; rfl))
  | .ok _, .error _ => isFalse (fun e => by cases e)
  | .error _, .ok _ => isFalse (fun e => by cases e)

/-- Result of a read: the value or the error, and the bytes left unread. -/
abbrev Read (α : Type) := Except RErr α × Bytes

/-- `reader.ReadByte()`. -/
def ReadByte : Bytes → Read Byte
  | [] => (.error .eof, [])
  | b :: r => (.ok b, r)

/-- `reader.ReadString(delim)`: the bytes up to and including the first
`delim`; when the stream ends before a `delim` everything is consumed and the
error is `io.EOF`. -/
def ReadString (delim : Byte) : Bytes → Read Bytes
  | [] => (.error .eof, [])
  | b :: r =>
    if b = delim then (.ok [b], r)
    else
      match ReadString delim r with
      | (.ok l, rest) => (.ok (b :: l), rest)
      | (.error e, rest) => (.error e, rest)

/-- `io.ReadFull(reader, buf)` with `len(buf) = n`: `io.EOF` when no byte could
be read, `io.ErrUnexpectedEOF` when some but not all bytes were read. -/
def ReadFull (n : Nat) (s : Bytes) : Read Bytes :=
  if n = 0 then (.ok [], s)
  else if s = [] then (.error .eof, [])
  else if s.length < n then (.error .unexpectedEOF, [])
  else (.ok (s.take n), s.drop n)

/-- `reader.Discard(n)`: skips `n` bytes whatever they are; when fewer are left
they are consumed and the error of the reader, `io.EOF`, is returned. -/
def Discard (n : Nat) (s : Bytes) : Read Unit :=
  if s.length < n then (.error .eof, []) else (.ok (), s.drop n)

/-! ## `resp.go` -/

/-- The function `readBulkString` of `resp.go` when the allocation
`make([]byte, length)` succeeds; `readBulkStringAlloc` is the function with
the allocation. -/
def readBulkString (s : Bytes) : Read Bytes :=
  match ReadByte s with
  | (.error e, s1) => (.error e, s1)
  | (.ok c, s1) =>
    if c ≠ 36 then (.error (.msg (lit "expected '$', got '" ++ fmtC c ++ lit "'")), s1)
    else
      match ReadString 10 s1 with
      | (.error e, s2) => (.error e, s2)
      | (.ok line, s2) =>
        match Atoi (TrimSuffix line CRLF) with
        | none => (.error (.msg (lit "invalid bulk string length")), s2)
        | some length =>
          if length < 0 then (.ok [], s2)
          else
            match ReadFull length.toNat s2 with
            | (.error e, s3) => (.error e, s3)
            | (.ok buf, s3) =>
              match Discard 2 s3 with
              | (.error e, s4) => (.error e, s4)
              | (.ok _, s4) => (.ok buf, s4)

/-- The loop `for i := 0; i < numElems; i++` of `readArray`, with `n` iterations
left and `args` read so far. -/
def readElems : Nat → List Bytes → Bytes → Read (List Bytes)
  | 0, args, s => (.ok args, s)
  | n + 1, args, s =>
    match readBulkString s with
    | (.error e, s1) => (.error e, s1)
    | (.ok arg, s1) => readElems n (args ++ [arg]) s1

/-- The function `readArray` of `resp.go` when the allocations
`make([]string, 0, numElems)` and `make([]byte, length)` succeed;
`readArrayAlloc` is the function with the allocations. -/
def readArray (s : Bytes) : Read (List Bytes) :=
  match ReadByte s with
  | (.error e, s1) => (.error e, s1)
  | (.ok c, s1) =>
    if c ≠ 42 then (.error (.msg (lit "expected '*', got '" ++ fmtC c ++ lit "'")), s1)
    else
      match ReadString 10 s1 with
      | (.error e, s2) => (.error e, s2)
      | (.ok line, s2) =>
        match Atoi (TrimSuffix line CRLF) with
        | none => (.error (.msg (lit "invalid array length")), s2)
        | some numElems =>
          if numElems < 0 then (.error (.msg (lit "invalid array length")), s2)
          else readElems numElems.toNat [] s2

/-- The constant `maxAlloc` of the Go runtime on a 64-bit platform
(linux/amd64): `make` panics when asked for more bytes. -/
def maxAlloc : Nat := 2 ^ 48

/-- Whether `make` obtains `size` bytes, when `allocMax` is the largest number
of bytes the process can still obtain: the request must fit in `allocMax` and
in the constant `maxAlloc` of the runtime. -/
def canAlloc (allocMax size : Nat) : Bool := decide (size ≤ allocMax) && decide (size ≤ maxAlloc)

/-- The function `readBulkString` of `resp.go` with its allocation. When
`make([]byte, length)` fails the runtime panics (or the process dies for lack
of memory), and nothing in `handleConnection` recovers from it: the result is
then `none`. -/
def readBulkStringAlloc (allocMax : Nat) (s : Bytes) : Option (Read Bytes) :=
  match ReadByte s with
  | (.error e, s1) => some (.error e, s1)
  | (.ok c, s1) =>
    if c ≠ 36 then some (.error (.msg (lit "expected '$', got '" ++ fmtC c ++ lit "'")), s1)
    else
      match ReadString 10 s1 with
      | (.error e, s2) => some (.error e, s2)
      | (.ok line, s2) =>
        match Atoi (TrimSuffix line CRLF) with
        | none => some (.error (.msg (lit "invalid bulk string length")), s2)
        | some length =>
          if length < 0 then some (.ok [], s2)
          else if canAlloc allocMax length.toNat = false then none
          else
            match ReadFull length.toNat s2 with
            | (.error e, s3) => some (.error e, s3)
            | (.ok buf, s3) =>
              match Discard 2 s3 with
              | (.error e, s4) => some (.error e, s4)
              | (.ok _, s4) => some (.ok buf, s4)

/-- The loop `for i := 0; i < numElems; i++` of `readArray`, with
`readBulkStringAlloc` for the call of `readBulkString`. -/
def readElemsAlloc (allocMax : Nat) : Nat → List Bytes → Bytes → Option (Read (List Bytes))
  | 0, args, s => some (.ok args, s)
  | n + 1, args, s =>
    match readBulkStringAlloc allocMax s with
    | none => none
    | some (.error e, s1) => some (.error e, s1)
    | some (.ok arg, s1) => readElemsAlloc allocMax n (args ++ [arg]) s1

/-- The function `readArray` of `resp.go` with its allocations:
`make([]string, 0, numElems)` asks for `numElems` string headers of 16 bytes
each, before any element is read. The result is `none` when an allocation
fails (see `readBulkStringAlloc`). -/
def readArrayAlloc (allocMax : Nat) (s : Bytes) : Option (Read (List Bytes)) :=
  match ReadByte s with
  | (.error e, s1) => some (.error e, s1)
  | (.ok c, s1) =>
    if c ≠ 42 then some (.error (.msg (lit "expected '*', got '" ++ fmtC c ++ lit "'")), s1)
    else
      match ReadString 10 s1 with
      | (.error e, s2) => some (.error e, s2)
      | (.ok line, s2) =>
        match Atoi (TrimSuffix line CRLF) with
        | none => some (.error (.msg (lit "invalid array length")), s2)
        | some numElems =>
          if numElems < 0 then some (.error (.msg (lit "invalid array length")), s2)
          else if canAlloc allocMax (16 * numElems.toNat) = false then none
          else readElemsAlloc allocMax numElems.toNat [] s2

/-- Bytes written by `writeSimpleString`. -/
def writeSimpleString (s : Bytes) : Bytes := lit "+" ++ s ++ CRLF

/-- Bytes written by `writeError`. -/
def writeError (msg : Bytes) : Bytes := lit "-" ++ msg ++ CRLF

/-- Bytes written by `writeInteger`. -/
def writeInteger (n : Int) : Bytes := lit ":" ++ FormatInt n ++ CRLF

/-- Bytes written by `writeBulkString`. -/
def writeBulkString (s : Bytes) : Bytes :=
  if s = [] then lit "$-1" ++ CRLF
  else lit "$" ++ FormatInt s.length ++ CRLF ++ s ++ CRLF

/-- Bytes written by `writeNull`. -/
def writeNull : Bytes := lit "$-1" ++ CRLF

/-! ## `client.go`: the request encoder -/

/-- The first string `doCommand` writes for an element: `"$" + Itoa(len(arg)) + "\r\n"`. -/
def bulkHeader (arg : Bytes) : Bytes := lit "$" ++ FormatInt arg.length ++ CRLF

/-- One element of a request as written by `doCommand`. -/
def encodeBulk (arg : Bytes) : Bytes := bulkHeader arg ++ (arg ++ CRLF)

/-- The loop `for _, arg := range args` of `doCommand`. -/
def encodeBulks : List Bytes → Bytes
  | [] => []
  | arg :: rest => encodeBulk arg ++ encodeBulks rest

/-- The string `doCommand` writes first: `"*" + Itoa(len(args)) + "\r\n"`. -/
def commandHeader (n : Nat) : Bytes := lit "*" ++ FormatInt n ++ CRLF

/-- The bytes `doCommand` writes for the request `args`. -/
def encodeCommand (args : List Bytes) : Bytes :=
  commandHeader args.length ++ encodeBulks args

/-! ## `time` -/

/-- An instant (`time.Time`), in nanoseconds. -/
abbrev Time := Int

/-- A `time.Duration`, in nanoseconds. -/
abbrev Duration := Int

/-- The constant `time.Second`. -/
def Second : Duration := 1000000000

/-- Reduction of an integer to the `int64` range (two's complement). -/
def wrapInt64 (x : Int) : Int := (x + 2 ^ 63) % 2 ^ 64 - 2 ^ 63

/-- `t.Sub(u)`, which is also `time.Until(t)` at the instant `u`: the
difference, kept inside the `int64` range of a `Duration`. -/
def timeSub (t u : Time) : Duration :=
  if t - u > 2 ^ 63 - 1 then 2 ^ 63 - 1
  else if t - u < -(2 ^ 63) then -(2 ^ 63)
  else t - u

/-- The conversion `int64(d.Seconds())`. `d.Seconds()` is the floating-point sum
of the whole seconds `d / Second` and of the fraction `(d % Second) / 1e9`, and
the conversion to `int64` drops the fraction: the quotient of `d` by
`Second`, rounded toward zero. (The floating-point sum is exact enough for this
as long as `d` is below `2 ^ 23` seconds in magnitude; beyond that the sum can
round up to the next whole second.) -/
def secondsInt64 (d : Duration) : Int := Int.tdiv d Second

/-! ## `store.go` -/

/-- A Go map with string keys. -/
abbrev GoMap (V : Type) := List (Bytes × V)

/-- The lookup `v, ok := m[k]`. -/
def GoMap.get {V : Type} (m : GoMap V) (k : Bytes) : Option V :=
  match m with
  | [] => none
  | (k1, v) :: rest => if k1 = k then some v else GoMap.get rest k

/-- The statement `delete(m, k)`. -/
def GoMap.delete {V : Type} (m : GoMap V) (k : Bytes) : GoMap V :=
  m.filter (fun p => decide (p.1 ≠ k))

/-- The statement `m[k] = v`. -/
def GoMap.set {V : Type} (m : GoMap V) (k : Bytes) (v : V) : GoMap V :=
  (k, v) :: GoMap.delete m k

/-- The type `Value`; the dispatcher only ever stores strings. -/
abbrev Value := Bytes

/-- The two maps of the type `Store`. -/
structure Store where
  data : GoMap Value
  expiry : GoMap Time
  deriving DecidableEq, Repr

namespace Store

/-- The maps built by `NewStore`. -/
def NewStore : Store := ⟨[], []⟩

/-- The method `Set`. -/
def Set (s : Store) (key : Bytes) (value : Value) : Store :=
  ⟨s.data.set key value, s.expiry.delete key⟩

/-- The method `SetEx`, run at the instant `now`. -/
def SetEx (s : Store) (now : Time) (key : Bytes) (value : Value) (ttl : Duration) : Store :=
  let ttl := if ttl = 0 then 3600 else ttl
  ⟨s.data.set key value, s.expiry.set key (now + ttl)⟩

/-- The method `Get`, run at the instant `now`: the store it leaves and the
pair it returns (`none` stands for `nil, false`). -/
def Get (s : Store) (now : Time) (key : Bytes) : Store × Option Value :=
  match s.expiry.get key with
  | some exp =>
    if now > exp then (⟨s.data.delete key, s.expiry.delete key⟩, none)
    else (s, s.data.get key)
  | none => (s, s.data.get key)

/-- The loop of the method `Del`: the store and the count after the keys. -/
def delLoop : List Bytes → Store → Nat → Store × Nat
  | [], s, count => (s, count)
  | key :: rest, s, count =>
    match s.data.get key with
    | some _ => delLoop rest ⟨s.data.delete key, s.expiry.delete key⟩ (count + 1)
    | none => delLoop rest s count

/-- The method `Del`. -/
def Del (s : Store) (keys : List Bytes) : Store × Nat := delLoop keys s 0

/-- The method `Expire`, run at the instant `now`. -/
def Expire (s : Store) (now : Time) (key : Bytes) (ttl : Duration) : Store × Bool :=
  match s.data.get key with
  | none => (s, false)
  | some _ => (⟨s.data, s.expiry.set key (now + ttl)⟩, true)

/-- The method `TTL`, run at the instant `now`. -/
def TTL (s : Store) (now : Time) (key : Bytes) : Duration :=
  match s.expiry.get key with
  | none => -1
  | some exp => if now > exp then -2 else timeSub exp now

/-- The method `Keys`, run at the instant `now`. -/
def Keys (s : Store) (now : Time) : List Bytes :=
  s.data.filterMap (fun p =>
    match s.expiry.get p.1 with
    | some exp => if now > exp then none else some p.1
    | none => some p.1)

/-- The method `FlushDB`. -/
def FlushDB (_s : Store) : Store := ⟨[], []⟩

/-- One tick of `cleanupExpiredKeys` at the instant `now`: the loop over the
entries `todo` of the expiration map. -/
def reapLoop (now : Time) : List (Bytes × Time) → Store → Store
  | [], s => s
  | (key, exp) :: todo, s =>
    if now > exp then reapLoop now todo ⟨s.data.delete key, s.expiry.delete key⟩
    else reapLoop now todo s

/-- One tick of `cleanupExpiredKeys` at the instant `now`. -/
def cleanupExpiredKeys (s : Store) (now : Time) : Store := reapLoop now s.expiry s

/-- Invariant I2 (and I1, its contrapositive): a key of the expiration map is a
key of the value map. -/
def Inv (s : Store) : Prop := ∀ k, s.data.get k = none → s.expiry.get k = none

end Store

/-! ## `main.go`: the dispatcher -/

/-- The `switch cmd` of `handleConnection`, at the instant `now`, for the
upper-cased command name `cmd` and the arguments `args` that follow it: the
store it leaves and the bytes it writes. -/
def dispatch (now : Time) (store : Store) (cmd : Bytes) (args : List Bytes) : Store × Bytes :=
  if cmd = lit "PING" then (store, writeSimpleString (lit "PONG"))
  else if cmd = lit "SET" then
    match args with
    | a0 :: a1 :: _ => (store.Set a0 a1, writeSimpleString (lit "OK"))
    | _ => (store, writeError (lit "ERR wrong number of arguments"))
  else if cmd = lit "GET" then
    match args with
    | [a0] =>
      match store.Get now a0 with
      | (store1, some value) => (store1, writeBulkString value)
      | (store1, none) => (store1, writeNull)
    | _ => (store, writeError (lit "ERR wrong number of arguments"))
  else if cmd = lit "SETEX" then
    match args with
    | [a0, a1, a2] =>
      match Atoi a1 with
      | none => (store, writeError (lit "ERR invalid expire time"))
      | some secs =>
        if secs ≤ 0 then (store, writeError (lit "ERR invalid expire time"))
        else (store.SetEx now a0 a2 (wrapInt64 (secs * Second)), writeSimpleString (lit "OK"))
    | _ => (store, writeError (lit "ERR wrong number of arguments"))
  else if cmd = lit "DEL" then
    match args with
    | [] => (store, writeError (lit "ERR wrong number of arguments"))
    | _ => ((store.Del args).1, writeInteger (store.Del args).2)
  else if cmd = lit "EXPIRE" then
    match args with
    | [a0, a1] =>
      match Atoi a1 with
      | none => (store, writeError (lit "ERR invalid expire time"))
      | some secs =>
        if secs ≤ 0 then (store, writeError (lit "ERR invalid expire time"))
        else
          match store.Expire now a0 (wrapInt64 (secs * Second)) with
          | (store1, true) => (store1, writeInteger 1)
          | (store1, false) => (store1, writeInteger 0)
    | _ => (store, writeError (lit "ERR wrong number of arguments"))
  else if cmd = lit "TTL" then
    match args with
    | [a0] => (store, writeInteger (secondsInt64 (store.TTL now a0)))
    | _ => (store, writeError (lit "ERR wrong number of arguments"))
  else (store, writeError (lit "ERR unknown command"))

/-- What one iteration of the loop of `handleConnection` does with a decoded
frame: nothing for an empty frame, else the dispatch on the upper-cased first
element. -/
def handleFrame (unicodeUpper : Bytes → Bytes) (now : Time) (store : Store)
    (frame : List Bytes) : Store × Bytes :=
  match frame with
  | [] => (store, [])
  | name :: args => dispatch now store (ToUpper unicodeUpper name) args

/-- How one iteration of the loop of `handleConnection` ends. -/
inductive StepResult where
  /-- An allocation of `readArray` failed: the goroutine panics and the
  process ends; nothing is written. -/
  | crashed
  /-- The function returns: the connection is closed, nothing is written. -/
  | closed
  /-- The loop goes on with this store and these unread bytes, after these
  bytes were written and flushed. -/
  | next (store : Store) (rest out : Bytes)
  deriving DecidableEq, Repr

/-- One iteration of the loop of `handleConnection` at the instant `now`, with
`allocMax` the largest number of bytes the process can still obtain. -/
def connStep (unicodeUpper : Bytes → Bytes) (allocMax : Nat) (now : Time) (store : Store)
    (stream : Bytes) : StepResult :=
  match readArrayAlloc allocMax stream with
  | none => .crashed
  | some (.error e, rest) =>
    if e = .eof then .closed
    else .next store rest (writeError (lit "ERR " ++ e.Error))
  | some (.ok frame, rest) =>
    .next (handleFrame unicodeUpper now store frame).1 rest
      (handleFrame unicodeUpper now store frame).2

/-- The loop of `handleConnection`, for at most `fuel` iterations; iteration
`i` runs at the instant `clock i`. The result is the last store, all the bytes
written to the connection, and whether the loop ended by a failed allocation. -/
def handleConnection (unicodeUpper : Bytes → Bytes) (allocMax : Nat) (clock : Nat → Time) :
    Nat → Nat → Store → Bytes → Store × Bytes × Bool
  | 0, _, store, _ => (store, [], false)
  | fuel + 1, i, store, stream =>
    match connStep unicodeUpper allocMax (clock i) store stream with
    | .crashed => (store, [], true)
    | .closed => (store, [], false)
    | .next store1 rest out =>
      ((handleConnection unicodeUpper allocMax clock fuel (i + 1) store1 rest).1,
        out ++ (handleConnection unicodeUpper allocMax clock fuel (i + 1) store1 rest).2.1,
        (handleConnection unicodeUpper allocMax clock fuel (i + 1) store1 rest).2.2)

/-- The error values `readBulkString` can return. -/
def BulkError (e : RErr) : Prop :=
  e = .eof ∨ e = .unexpectedEOF ∨ e = .msg (lit "invalid bulk string length") ∨
    ∃ c : Byte, e = .msg (lit "expected '$', got '" ++ fmtC c ++ lit "'")

/-! ## Shape of a reply line -/

/-- Number of places where the two bytes `\r\n` occur in `s`. -/
def countCRLF : Bytes → Nat
  | a :: b :: r => (if a = 13 ∧ b = 10 then 1 else 0) + countCRLF (b :: r)
  | _ => 0

/-- The bytes `out` end with `\r\n` and hold no other `\r\n`: one line whose
only `\r\n` is its terminator. -/
def SingleLine (out : Bytes) : Prop := CRLF.isSuffixOf out = true ∧ countCRLF out = 1

instance instDecidableSingleLine (out : Bytes) : Decidable (SingleLine out) :=
  inferInstanceAs (Decidable (_ ∧ _))

/-! ## Sequences of store operations -/

/-- A Go map holds a key at most once. -/
def GoMap.WF {V : Type} (m : GoMap V) : Prop := (m.map Prod.fst).Nodup

instance instDecidableGoMapWF {V : Type} (m : GoMap V) : Decidable (GoMap.WF m) :=
  inferInstanceAs (Decidable (List.Nodup _))

/-- The calls that can be made on the store, and the tick of the reaper. -/
inductive Op where
  /-- The call `Set(key, value)`. -/
  | set (key : Bytes) (value : Value)
  /-- The call `SetEx(key, value, ttl)`. -/
  | setEx (key : Bytes) (value : Value) (ttl : Duration)
  /-- The call `Get(key)`. -/
  | get (key : Bytes)
  /-- The call `Del(keys...)`. -/
  | del (keys : List Bytes)
  /-- The call `Expire(key, ttl)`. -/
  | expire (key : Bytes) (ttl : Duration)
  /-- The call `TTL(key)`. -/
  | ttl (key : Bytes)
  /-- The call `Keys()`. -/
  | keys
  /-- The call `FlushDB()`. -/
  | flushDB
  /-- One tick of `cleanupExpiredKeys`. -/
  | reap
  deriving DecidableEq, Repr

/-- The store after the operation `op`, run alone at the instant `now`. -/
def Store.step (s : Store) (now : Time) (op : Op) : Store :=
  match op with
  | .set key value => Store.Set s key value
  | .setEx key value ttl => Store.SetEx s now key value ttl
  | .get key => (Store.Get s now key).1
  | .del ks => (Store.Del s ks).1
  | .expire key ttl => (Store.Expire s now key ttl).1
  | .ttl _ => s
  | .keys => s
  | .flushDB => Store.FlushDB s
  | .reap => Store.cleanupExpiredKeys s now

/-- The store after a sequence of operations, each with the instant at which
it runs. -/
def Store.run (s : Store) : List (Time × Op) → Store
  | [] => s
  | (now, op) :: rest => Store.run (Store.step s now op) rest

/-- The operation `op` is a read, a tick of the reaper, or a write (`Set`,
`SetEx`, `Del`, `Expire`) to keys other than `k`. -/
def Op.avoids (k : Bytes) (op : Op) : Bool :=
  match op with
  | .set key _ => decide (key ≠ k)
  | .setEx key _ _ => decide (key ≠ k)
  | .del ks => decide (k ∉ ks)
  | .expire key _ => decide (key ≠ k)
  | .flushDB => false
  | .get _ => true
  | .ttl _ => true
  | .keys => true
  | .reap => true

/-- The test `ok && time.Now().After(exp)` that `Get` and `Keys` make on the
expiration of `key`, at the instant `now`. -/
def Store.expired (s : Store) (now : Time) (key : Bytes) : Bool :=
  match s.expiry.get key with
  | some exp => decide (now > exp)
  | none => false

/-- Whether the loop of the reaper over the entries `todo`, at the instant
`now`, deletes the key `k`. -/
def reaped (now : Time) (todo : List (Bytes × Time)) (k : Bytes) : Bool :=
  todo.any (fun e => decide (e.1 = k) && decide (now > e.2))

/-! ## The lock-protected sections of `Get` -/

/-- What the section of `Get` under the read lock decides: to evict the key
(the read lock is then released and the write lock taken), or the pair to
return. -/
inductive GetStep where
  /-- The expiration of the key has passed. -/
  | evict
  /-- The pair to return, `none` for `nil, false`. -/
  | result (r : Option Value)
  deriving DecidableEq, Repr

/-- The section of `Get` under the read lock, at the instant `now`. -/
def Store.getRead (s : Store) (now : Time) (key : Bytes) : GetStep :=
  match s.expiry.get key with
  | some exp => if now > exp then .evict else .result (s.data.get key)
  | none => .result (s.data.get key)

/-- The section of `Get` under the write lock: the two `delete`. -/
def Store.getEvict (s : Store) (key : Bytes) : Store :=
  ⟨s.data.delete key, s.expiry.delete key⟩

/-- Where the lock-protected section of a writer falls with respect to the
sections of a `Get` that runs at the same time. -/
inductive Schedule where
  /-- The writer runs before `Get` takes the read lock. -/
  | writerFirst
  /-- The writer runs after `Get` released the read lock and before it takes
  the write lock. -/
  | writerBetween
  /-- The writer runs after `Get` has returned. -/
  | writerLast
  deriving DecidableEq, Repr

/-- `Get(key)` at the instant `now` together with a writer whose section is
`w`, under the schedule given: the store left and the pair `Get` returns. -/
def Store.raceGet (s : Store) (now : Time) (key : Bytes) (w : Store → Store) :
    Schedule → Store × Option Value
  | .writerFirst => Store.Get (w s) now key
  | .writerLast => (w (Store.Get s now key).1, (Store.Get s now key).2)
  | .writerBetween =>
    match Store.getRead s now key with
    | .evict => (Store.getEvict (w s) key, none)
    | .result r => (w s, r)

/-! ## Decimal text -/

theorem digitByte_val (d : Nat) : (digitByte d).val = 48 + d % 10 := by
  have h : d % 10 < 10 := Nat.mod_lt _ (by decide)
  simp only [digitByte, Fin.ofNat, Fin.val_mk]
  omega

theorem parseDigits_append (a b : Bytes) (acc : Nat) :
    parseDigits acc (a ++ b) = (parseDigits acc a).bind (fun x => parseDigits x b) := by
  induction a generalizing acc with
  | nil => simp [parseDigits]
  | cons c r ih =>
    simp only [List.cons_append, parseDigits]
    split
    · exact ih _
    · rfl

theorem parseDigits_digitByte (acc d : Nat) :
    parseDigits acc [digitByte d] = some (acc * 10 + d % 10) := by
  have h := digitByte_val d
  have h2 : d % 10 < 10 := Nat.mod_lt _ (by decide)
  simp only [parseDigits, h]
  rw [if_pos (by omega)]
  congr 1
  omega

theorem parseDigits_natDigits (fuel n : Nat) (h : n < fuel) :
    parseDigits 0 (natDigits fuel n) = some n := by
  induction fuel generalizing n with
  | zero => omega
  | succ f ih =>
    simp only [natDigits]
    split
    · rw [parseDigits_digitByte]
      congr 1
      omega
    · rw [parseDigits_append, ih (n / 10) (by omega)]
      simp only [Option.bind, parseDigits_digitByte]
      congr 1
      omega

theorem natDigits_digits (fuel n : Nat) :
    ∀ c ∈ natDigits fuel n, 48 ≤ c.val ∧ c.val ≤ 57 := by
  induction fuel generalizing n with
  | zero => simp [natDigits]
  | succ f ih =>
    intro c hc
    have hd := digitByte_val n
    have h2 : n % 10 < 10 := Nat.mod_lt _ (by decide)
    simp only [natDigits] at hc
    split at hc
    · simp only [List.mem_singleton] at hc
      subst hc
      omega
    · rcases List.mem_append.1 hc with h | h
      · exact ih _ c h
      · simp only [List.mem_singleton] at h
        subst h
        omega

theorem natDigits_ne_nil (fuel n : Nat) : natDigits (fuel + 1) n ≠ [] := by
  simp only [natDigits]
  split
  · simp
  · simp

theorem formatNat_digits (n : Nat) : ∀ c ∈ formatNat n, 48 ≤ c.val ∧ c.val ≤ 57 :=
  natDigits_digits _ _

theorem formatNat_ne_nil (n : Nat) : formatNat n ≠ [] := natDigits_ne_nil _ _

theorem FormatInt_natCast (n : Nat) : FormatInt (n : Int) = formatNat n := by
  simp [FormatInt]

theorem Atoi_formatNat (n : Nat) (h : n < 2 ^ 63) : Atoi (formatNat n) = some (n : Int) := by
  have hp : parseDigits 0 (formatNat n) = some n := parseDigits_natDigits _ _ (by omega)
  have hne := formatNat_ne_nil n
  have hd := formatNat_digits n
  cases hs : formatNat n with
  | nil => exact absurd hs hne
  | cons c r =>
    rw [hs] at hp hd
    have hc := hd c (List.mem_cons_self _ _)
    have h45 : c ≠ 45 := by
      intro e
      rw [e] at hc
      exact absurd hc.1 (by decide)
    have h43 : c ≠ 43 := by
      intro e
      rw [e] at hc
      exact absurd hc.1 (by decide)
    have h63 : n < 9223372036854775808 := by
      have e : (2 : Nat) ^ 63 = 9223372036854775808 := by norm_num
      omega
    simp only [Atoi, h45, h43, or_self, if_false, hp, decide_False]
    simp [h63]

/-! ## Reading what the client writes -/

theorem TrimSuffix_append_CRLF (ds : Bytes) : TrimSuffix (ds ++ CRLF) CRLF = ds := by
  have h : CRLF.isSuffixOf (ds ++ CRLF) = true :=
    List.isSuffixOf_iff_suffix.2 (List.suffix_append _ _)
  simp only [TrimSuffix, h, if_true, List.length_append, Nat.add_sub_cancel]
  exact List.take_left _ _

theorem ReadString_append (d : Byte) (a rest : Bytes) (h : ∀ c ∈ a, c ≠ d) :
    ReadString d (a ++ d :: rest) = (.ok (a ++ [d]), rest) := by
  induction a with
  | nil => simp [ReadString]
  | cons c r ih =>
    have hc : c ≠ d := h c (List.mem_cons_self _ _)
    have hr := ih (fun x hx => h x (List.mem_cons_of_mem _ hx))
    rw [List.cons_append]
    simp only [ReadString, hc, if_false]
    rw [hr]
    rfl

theorem ReadString_formatNat (n : Nat) (rest : Bytes) :
    ReadString 10 (formatNat n ++ CRLF ++ rest) = (.ok (formatNat n ++ CRLF), rest) := by
  have h : ∀ c ∈ formatNat n ++ [13], c ≠ (10 : Byte) := by
    intro c hc e
    rcases List.mem_append.1 hc with h1 | h1
    · have := formatNat_digits n c h1
      rw [e] at this
      exact absurd this.1 (by decide)
    · simp only [List.mem_singleton] at h1
      rw [h1] at e
      exact absurd e (by decide)
  have e := ReadString_append 10 (formatNat n ++ [13]) rest h
  simpa [CRLF] using e

theorem ReadFull_append (a rest : Bytes) : ReadFull a.length (a ++ rest) = (.ok a, rest) := by
  cases a with
  | nil => simp [ReadFull]
  | cons c r =>
    simp only [ReadFull, List.length_cons, Nat.add_one_ne_zero, if_false, List.cons_append,
      List.length_append]
    rw [if_neg (by simp), if_neg (by omega)]
    have h1 : List.take (r.length + 1) (c :: (r ++ rest)) = c :: r := by
      simp
    have h2 : List.drop (r.length + 1) (c :: (r ++ rest)) = rest := by
      simp
    rw [h1, h2]

theorem readBulkString_encodeBulk (a rest : Bytes) (h : a.length < 2 ^ 63) :
    readBulkString (encodeBulk a ++ rest) = (.ok a, rest) := by
  have e1 : encodeBulk a ++ rest = (36 : Byte) :: (formatNat a.length ++ CRLF ++ (a ++ CRLF ++ rest)) := by
    simp [encodeBulk, bulkHeader, lit, FormatInt_natCast, Fin.ofNat]
  have e2 := ReadString_formatNat a.length (a ++ CRLF ++ rest)
  have e3 := TrimSuffix_append_CRLF (formatNat a.length)
  have e4 := Atoi_formatNat a.length h
  have e5 : ReadFull a.length (a ++ CRLF ++ rest) = (.ok a, CRLF ++ rest) := by
    rw [List.append_assoc]
    exact ReadFull_append a (CRLF ++ rest)
  have e6 : Discard 2 (CRLF ++ rest) = (.ok (), rest) := by
    simp [Discard, CRLF]
  rw [e1]
  simp only [readBulkString, ReadByte, ne_eq, not_true_eq_false, if_false, e2, e3, e4]
  rw [if_neg (by omega)]
  simp only [Int.toNat_ofNat, e5, e6]

theorem GoMap.get_delete_self {V : Type} (m : GoMap V) (k : Bytes) :
    (m.delete k).get k = none := by
  induction m with
  | nil => rfl
  | cons p r ih =>
    obtain ⟨k1, v⟩ := p
    by_cases h : k1 = k
    · simp only [GoMap.delete, List.filter, h, ne_eq, not_true_eq_false, decide_False]
      exact ih
    · simp only [GoMap.delete, List.filter, h, ne_eq, not_false_eq_true, decide_True,
        GoMap.get, if_false]
      exact ih

theorem GoMap.get_delete_ne {V : Type} (m : GoMap V) (k k2 : Bytes) (hne : k2 ≠ k) :
    (m.delete k).get k2 = m.get k2 := by
  induction m with
  | nil => rfl
  | cons p r ih =>
    obtain ⟨k1, v⟩ := p
    by_cases h : k1 = k
    · have h2 : k1 ≠ k2 := fun e => hne (e ▸ h)
      simp only [GoMap.delete, List.filter, h, ne_eq, not_true_eq_false, decide_False,
        GoMap.get]
      rw [if_neg (fun e => hne (e.symm))]
      exact ih
    · simp only [GoMap.delete, List.filter, h, ne_eq, not_false_eq_true, decide_True,
        GoMap.get]
      split
      · rfl
      · exact ih

theorem GoMap.get_set_self {V : Type} (m : GoMap V) (k : Bytes) (v : V) :
    (m.set k v).get k = some v := by
  simp [GoMap.set, GoMap.get]

theorem GoMap.get_set_ne {V : Type} (m : GoMap V) (k k2 : Bytes) (v : V) (hne : k2 ≠ k) :
    (m.set k v).get k2 = m.get k2 := by
  simp only [GoMap.set, GoMap.get]
  rw [if_neg (fun e => hne e.symm)]
  exact GoMap.get_delete_ne m k k2 hne

/-! ## Dispatcher: SET, GET, TTL -/

theorem ToUpper_SET (u : Bytes → Bytes) : ToUpper u (lit "SET") = lit "SET" := rfl

theorem ToUpper_GET (u : Bytes → Bytes) : ToUpper u (lit "GET") = lit "GET" := rfl

theorem ToUpper_TTL (u : Bytes → Bytes) : ToUpper u (lit "TTL") = lit "TTL" := rfl

theorem dispatch_SET (now : Time) (s : Store) (args : List Bytes) :
    dispatch now s (lit "SET") args =
      match args with
      | a0 :: a1 :: _ => (s.Set a0 a1, writeSimpleString (lit "OK"))
      | _ => (s, writeError (lit "ERR wrong number of arguments")) := by
  unfold dispatch
  rw [if_neg (show lit "SET" ≠ lit "PING" by decide), if_pos rfl]

theorem dispatch_GET (now : Time) (s : Store) (args : List Bytes) :
    dispatch now s (lit "GET") args =
      match args with
      | [a0] =>
        match s.Get now a0 with
        | (store1, some value) => (store1, writeBulkString value)
        | (store1, none) => (store1, writeNull)
      | _ => (s, writeError (lit "ERR wrong number of arguments")) := by
  unfold dispatch
  rw [if_neg (show lit "GET" ≠ lit "PING" by decide),
    if_neg (show lit "GET" ≠ lit "SET" by decide), if_pos rfl]

theorem dispatch_TTL (now : Time) (s : Store) (args : List Bytes) :
    dispatch now s (lit "TTL") args =
      match args with
      | [a0] => (s, writeInteger (secondsInt64 (s.TTL now a0)))
      | _ => (s, writeError (lit "ERR wrong number of arguments")) := by
  unfold dispatch
  rw [if_neg (show lit "TTL" ≠ lit "PING" by decide),
    if_neg (show lit "TTL" ≠ lit "SET" by decide),
    if_neg (show lit "TTL" ≠ lit "GET" by decide),
    if_neg (show lit "TTL" ≠ lit "SETEX" by decide),
    if_neg (show lit "TTL" ≠ lit "DEL" by decide),
    if_neg (show lit "TTL" ≠ lit "EXPIRE" by decide), if_pos rfl]

theorem handleFrame_SET (u : Bytes → Bytes) (now : Time) (s : Store) (k v : Bytes) :
    handleFrame u now s [lit "SET", k, v] = (s.Set k v, lit "+OK\r\n") := by
  simp only [handleFrame, ToUpper_SET, dispatch_SET]
  rfl

theorem Get_after_Set (s : Store) (now : Time) (k v : Bytes) :
    ((s.Set k v).Get now k).2 = some v := by
  simp only [Store.Get, Store.Set, GoMap.get_delete_self, GoMap.get_set_self]

theorem formatNat_head (n : Nat) : ∃ c r, formatNat n = c :: r ∧ c ≠ 45 := by
  cases hs : formatNat n with
  | nil => exact absurd hs (formatNat_ne_nil n)
  | cons c r =>
    refine ⟨c, r, rfl, ?_⟩
    have hc := formatNat_digits n c (by rw [hs]; exact List.mem_cons_self _ _)
    intro e
    rw [e] at hc
    exact absurd hc.1 (by decide)

/-- C1, counterexample: after `SET k ""` the reply to `GET k` is the null
reply `$-1\r\n`, not the bulk string `$0\r\n\r\n` of the empty value. -/
theorem set_get_empty_value_is_null :
    (handleFrame id 0 Store.NewStore [lit "SET", lit "k", []]).2 = lit "+OK\r\n" ∧
    (handleFrame id 0 (handleFrame id 0 Store.NewStore [lit "SET", lit "k", []]).1
        [lit "GET", lit "k"]).2 = lit "$-1\r\n" ∧
    (handleFrame id 0 (handleFrame id 0 Store.NewStore [lit "SET", lit "k", []]).1
        [lit "GET", lit "k"]).2 ≠ lit "$" ++ FormatInt 0 ++ CRLF ++ [] ++ CRLF := by
  decide

/-- C1, amended: for every key `k` and every non-empty value `v`, on any store
and at any two instants, the dispatcher replies `+OK\r\n` to `SET k v` and
then, to `GET k`, the bulk string `$<byte length of v>\r\n<v>\r\n`, which
differs from the null reply `$-1\r\n`. -/
theorem set_then_get_reply (u : Bytes → Bytes) (now1 now2 : Time) (s : Store) (k v : Bytes)
    (hv : v ≠ []) :
    (handleFrame u now1 s [lit "SET", k, v]).2 = lit "+OK\r\n" ∧
    (handleFrame u now2 (handleFrame u now1 s [lit "SET", k, v]).1 [lit "GET", k]).2
      = lit "$" ++ FormatInt v.length ++ CRLF ++ v ++ CRLF ∧
    (handleFrame u now2 (handleFrame u now1 s [lit "SET", k, v]).1 [lit "GET", k]).2
      ≠ lit "$-1\r\n" := by
  have hget : (handleFrame u now2 (handleFrame u now1 s [lit "SET", k, v]).1 [lit "GET", k]).2
      = lit "$" ++ FormatInt v.length ++ CRLF ++ v ++ CRLF := by
    rw [handleFrame_SET]
    simp only [handleFrame, ToUpper_GET, dispatch_GET]
    have h2 := Get_after_Set s now2 k v
    cases hg : (s.Set k v).Get now2 k with
    | mk s1 r =>
      rw [hg] at h2
      simp only at h2
      subst h2
      simp only [writeBulkString, hv, if_false]
  refine ⟨by rw [handleFrame_SET], hget, ?_⟩
  rw [hget, FormatInt_natCast]
  obtain ⟨c, r, hc, hne⟩ := formatNat_head v.length
  rw [hc]
  intro e
  have e2 : c = 45 := by
    have e3 := congrArg (fun l => l.drop 1 |>.head?) e
    simpa [lit, Fin.ofNat] using e3
  exact hne e2

/-- Witness of C1 (amended): the key `k` and the value `v`. -/
theorem set_then_get_reply_witness :
    (handleFrame id 5 Store.NewStore [lit "SET", lit "k", lit "v"]).2 = lit "+OK\r\n" ∧
    (handleFrame id 9 (handleFrame id 5 Store.NewStore [lit "SET", lit "k", lit "v"]).1
        [lit "GET", lit "k"]).2
      = lit "$" ++ FormatInt (lit "v").length ++ CRLF ++ lit "v" ++ CRLF ∧
    (handleFrame id 9 (handleFrame id 5 Store.NewStore [lit "SET", lit "k", lit "v"]).1
        [lit "GET", lit "k"]).2
      ≠ lit "$-1\r\n" :=
  set_then_get_reply id 5 9 Store.NewStore (lit "k") (lit "v") (by decide)

/-- C2, the code at the failing input: after `SET k v` on any store, the reply
the dispatcher writes to `TTL k` is `:0\r\n`, which is not `:-1\r\n`.
`Store.TTL` returns the duration `-1` (one nanosecond below zero) and the
dispatcher converts it to whole seconds. -/
theorem ttl_reply_after_set (u : Bytes → Bytes) (now1 now2 : Time) (s : Store) (k v : Bytes) :
    (handleFrame u now1 s [lit "SET", k, v]).1.TTL now2 k = -1 ∧
    (handleFrame u now2 (handleFrame u now1 s [lit "SET", k, v]).1 [lit "TTL", k]).2
      = lit ":0\r\n" ∧
    (handleFrame u now2 (handleFrame u now1 s [lit "SET", k, v]).1 [lit "TTL", k]).2
      ≠ lit ":-1\r\n" := by
  have h1 : (s.Set k v).TTL now2 k = -1 := by
    simp only [Store.TTL, Store.Set, GoMap.get_delete_self]
  have h2 : (handleFrame u now2 (handleFrame u now1 s [lit "SET", k, v]).1 [lit "TTL", k]).2
      = lit ":0\r\n" := by
    rw [handleFrame_SET]
    simp only [handleFrame, ToUpper_TTL, dispatch_TTL, h1]
    decide
  refine ⟨by rw [handleFrame_SET]; exact h1, h2, ?_⟩
  rw [h2]
  decide

/-- C3, the code at the failing input: `Store.TTL` of a key that is in neither
map (here on the store built by `NewStore`) is `-1`, the "no expiration"
sentinel, at every instant. -/
theorem TTL_absent_key (now : Time) (k : Bytes) :
    Store.NewStore.data.get k = none ∧ Store.NewStore.TTL now k = -1 :=
  ⟨rfl, rfl⟩

/-- C5, the code at the failing input: on every store and at every instant
the frames `FLUSHDB` and `KEYS` get the reply `-ERR unknown command\r\n` and
leave the store as it was. -/
theorem flushdb_keys_unknown (u : Bytes → Bytes) (now : Time) (s : Store) :
    handleFrame u now s [lit "FLUSHDB"] = (s, lit "-ERR unknown command\r\n") ∧
    handleFrame u now s [lit "KEYS"] = (s, lit "-ERR unknown command\r\n") := by
  constructor
  · have h : ToUpper u (lit "FLUSHDB") = lit "FLUSHDB" := rfl
    simp only [handleFrame, h]
    unfold dispatch
    rw [if_neg (show lit "FLUSHDB" ≠ lit "PING" by decide),
      if_neg (show lit "FLUSHDB" ≠ lit "SET" by decide),
      if_neg (show lit "FLUSHDB" ≠ lit "GET" by decide),
      if_neg (show lit "FLUSHDB" ≠ lit "SETEX" by decide),
      if_neg (show lit "FLUSHDB" ≠ lit "DEL" by decide),
      if_neg (show lit "FLUSHDB" ≠ lit "EXPIRE" by decide),
      if_neg (show lit "FLUSHDB" ≠ lit "TTL" by decide)]
    rfl
  · have h : ToUpper u (lit "KEYS") = lit "KEYS" := rfl
    simp only [handleFrame, h]
    unfold dispatch
    rw [if_neg (show lit "KEYS" ≠ lit "PING" by decide),
      if_neg (show lit "KEYS" ≠ lit "SET" by decide),
      if_neg (show lit "KEYS" ≠ lit "GET" by decide),
      if_neg (show lit "KEYS" ≠ lit "SETEX" by decide),
      if_neg (show lit "KEYS" ≠ lit "DEL" by decide),
      if_neg (show lit "KEYS" ≠ lit "EXPIRE" by decide),
      if_neg (show lit "KEYS" ≠ lit "TTL" by decide)]
    rfl

/-! ## Dispatcher: arity -/

theorem dispatch_SETEX (now : Time) (s : Store) (args : List Bytes) :
    dispatch now s (lit "SETEX") args =
      match args with
      | [a0, a1, a2] =>
        match Atoi a1 with
        | none => (s, writeError (lit "ERR invalid expire time"))
        | some secs =>
          if secs ≤ 0 then (s, writeError (lit "ERR invalid expire time"))
          else (s.SetEx now a0 a2 (wrapInt64 (secs * Second)), writeSimpleString (lit "OK"))
      | _ => (s, writeError (lit "ERR wrong number of arguments")) := by
  unfold dispatch
  rw [if_neg (show lit "SETEX" ≠ lit "PING" by decide),
    if_neg (show lit "SETEX" ≠ lit "SET" by decide),
    if_neg (show lit "SETEX" ≠ lit "GET" by decide), if_pos rfl]

theorem dispatch_DEL (now : Time) (s : Store) (args : List Bytes) :
    dispatch now s (lit "DEL") args =
      match args with
      | [] => (s, writeError (lit "ERR wrong number of arguments"))
      | _ => ((s.Del args).1, writeInteger (s.Del args).2) := by
  unfold dispatch
  rw [if_neg (show lit "DEL" ≠ lit "PING" by decide),
    if_neg (show lit "DEL" ≠ lit "SET" by decide),
    if_neg (show lit "DEL" ≠ lit "GET" by decide),
    if_neg (show lit "DEL" ≠ lit "SETEX" by decide), if_pos rfl]

theorem dispatch_EXPIRE (now : Time) (s : Store) (args : List Bytes) :
    dispatch now s (lit "EXPIRE") args =
      match args with
      | [a0, a1] =>
        match Atoi a1 with
        | none => (s, writeError (lit "ERR invalid expire time"))
        | some secs =>
          if secs ≤ 0 then (s, writeError (lit "ERR invalid expire time"))
          else
            match s.Expire now a0 (wrapInt64 (secs * Second)) with
            | (store1, true) => (store1, writeInteger 1)
            | (store1, false) => (store1, writeInteger 0)
      | _ => (s, writeError (lit "ERR wrong number of arguments")) := by
  unfold dispatch
  rw [if_neg (show lit "EXPIRE" ≠ lit "PING" by decide),
    if_neg (show lit "EXPIRE" ≠ lit "SET" by decide),
    if_neg (show lit "EXPIRE" ≠ lit "GET" by decide),
    if_neg (show lit "EXPIRE" ≠ lit "SETEX" by decide),
    if_neg (show lit "EXPIRE" ≠ lit "DEL" by decide), if_pos rfl]

/-- C4, counterexample: the frame `SET k v EX 10`, a `SET` with four
arguments (the frame the client method `SetEx` sends), is not refused: the
reply is `+OK\r\n` and the store now holds `k`. -/
theorem set_with_extra_arguments_accepted :
    (handleFrame id 0 Store.NewStore [lit "SET", lit "k", lit "v", lit "EX", lit "10"]).2
      = lit "+OK\r\n" ∧
    (handleFrame id 0 Store.NewStore [lit "SET", lit "k", lit "v", lit "EX", lit "10"]).2
      ≠ lit "-ERR wrong number of arguments\r\n" ∧
    (handleFrame id 0 Store.NewStore [lit "SET", lit "k", lit "v", lit "EX", lit "10"]).1
      ≠ Store.NewStore := by
  decide

/-- C4, amended: a frame whose command (in any letter case) is `SET` with
fewer than 2 arguments, `GET` or `TTL` with a count other than 1, `SETEX` with
a count other than 3, `EXPIRE` with a count other than 2, or `DEL` with no
argument gets the reply `-ERR wrong number of arguments\r\n` and leaves the
store, values and expirations, as it was. -/
theorem wrong_arity_reply (u : Bytes → Bytes) (now : Time) (s : Store) (name : Bytes)
    (args : List Bytes)
    (h : (ToUpper u name = lit "SET" ∧ args.length < 2) ∨
      (ToUpper u name = lit "GET" ∧ args.length ≠ 1) ∨
      (ToUpper u name = lit "TTL" ∧ args.length ≠ 1) ∨
      (ToUpper u name = lit "SETEX" ∧ args.length ≠ 3) ∨
      (ToUpper u name = lit "EXPIRE" ∧ args.length ≠ 2) ∨
      (ToUpper u name = lit "DEL" ∧ args.length = 0)) :
    handleFrame u now s (name :: args) = (s, lit "-ERR wrong number of arguments\r\n") := by
  have hw : writeError (lit "ERR wrong number of arguments")
      = lit "-ERR wrong number of arguments\r\n" := by decide
  rcases h with ⟨hc, hl⟩ | ⟨hc, hl⟩ | ⟨hc, hl⟩ | ⟨hc, hl⟩ | ⟨hc, hl⟩ | ⟨hc, hl⟩
  · simp only [handleFrame, hc, dispatch_SET]
    match args, hl with
    | [], _ => exact congrArg (Prod.mk s) hw
    | [_], _ => exact congrArg (Prod.mk s) hw
    | _ :: _ :: _, hl => exact absurd hl (by simp)
  · simp only [handleFrame, hc, dispatch_GET]
    match args, hl with
    | [], _ => exact congrArg (Prod.mk s) hw
    | [_], hl => exact absurd hl (by simp)
    | _ :: _ :: _, _ => exact congrArg (Prod.mk s) hw
  · simp only [handleFrame, hc, dispatch_TTL]
    match args, hl with
    | [], _ => exact congrArg (Prod.mk s) hw
    | [_], hl => exact absurd hl (by simp)
    | _ :: _ :: _, _ => exact congrArg (Prod.mk s) hw
  · simp only [handleFrame, hc, dispatch_SETEX]
    match args, hl with
    | [], _ => exact congrArg (Prod.mk s) hw
    | [_], _ => exact congrArg (Prod.mk s) hw
    | [_, _], _ => exact congrArg (Prod.mk s) hw
    | [_, _, _], hl => exact absurd hl (by simp)
    | _ :: _ :: _ :: _ :: _, _ => exact congrArg (Prod.mk s) hw
  · simp only [handleFrame, hc, dispatch_EXPIRE]
    match args, hl with
    | [], _ => exact congrArg (Prod.mk s) hw
    | [_], _ => exact congrArg (Prod.mk s) hw
    | [_, _], hl => exact absurd hl (by simp)
    | _ :: _ :: _ :: _, _ => exact congrArg (Prod.mk s) hw
  · simp only [handleFrame, hc, dispatch_DEL]
    match args, hl with
    | [], _ => exact congrArg (Prod.mk s) hw
    | _ :: _, hl => exact absurd hl (by simp)

/-- Witness of C4 (amended): the frame `get` with no argument, on a store that
holds one key. -/
theorem wrong_arity_reply_witness :
    handleFrame id 7 ⟨[(lit "k", lit "v")], []⟩ [lit "get"]
      = (⟨[(lit "k", lit "v")], []⟩, lit "-ERR wrong number of arguments\r\n") :=
  wrong_arity_reply id 7 ⟨[(lit "k", lit "v")], []⟩ (lit "get") []
    (Or.inr (Or.inl ⟨by decide, by decide⟩))

/-! ## `Store.Del` -/

theorem delLoop_data_get (keys : List Bytes) (s : Store) (c : Nat) (k : Bytes) :
    (Store.delLoop keys s c).1.data.get k = if k ∈ keys then none else s.data.get k := by
  induction keys generalizing s c with
  | nil => simp [Store.delLoop]
  | cons key rest ih =>
    simp only [Store.delLoop]
    cases hk : s.data.get key with
    | none =>
      simp only [ih, List.mem_cons]
      by_cases e : k = key
      · subst e
        simp [hk]
      · simp [e]
    | some v =>
      simp only [ih, List.mem_cons]
      by_cases e : k = key
      · subst e
        simp [GoMap.get_delete_self]
      · simp [e, GoMap.get_delete_ne _ _ _ e]

theorem delLoop_expiry_get (keys : List Bytes) (s : Store) (c : Nat) (k : Bytes) :
    (Store.delLoop keys s c).1.expiry.get k
      = if k ∈ keys ∧ (s.data.get k).isSome then none else s.expiry.get k := by
  induction keys generalizing s c with
  | nil => simp [Store.delLoop]
  | cons key rest ih =>
    simp only [Store.delLoop]
    cases hk : s.data.get key with
    | none =>
      simp only [ih, List.mem_cons]
      by_cases e : k = key
      · subst e
        simp [hk]
      · simp [e]
    | some v =>
      simp only [ih, List.mem_cons]
      by_cases e : k = key
      · subst e
        simp [GoMap.get_delete_self, hk]
      · simp [e, GoMap.get_delete_ne _ _ _ e]

theorem countP_split_key (p : Bytes → Bool) (key : Bytes) (l : List Bytes) (hl : l.Nodup) :
    l.countP p = l.countP (fun k => p k && decide (k ≠ key))
      + (if key ∈ l ∧ p key = true then 1 else 0) := by
  induction l with
  | nil => simp
  | cons a r ih =>
    have hr := ih (List.nodup_cons.1 hl).2
    have ha : a ∉ r := (List.nodup_cons.1 hl).1
    by_cases e : a = key
    · subst e
      have h0 : (if a ∈ r ∧ p a = true then 1 else 0) = 0 := by simp [ha]
      rw [h0] at hr
      cases hp : p a <;> simp [List.countP_cons, hp, hr]
    · have e2 : key ≠ a := fun x => e x.symm
      cases hp : p a <;> simp [List.countP_cons, hp, hr, e, e2]
      omega

theorem delLoop_count (keys : List Bytes) (s : Store) (c : Nat) :
    (Store.delLoop keys s c).2
      = c + (keys.dedup.filter (fun k => (s.data.get k).isSome)).length := by
  simp only [← List.countP_eq_length_filter]
  induction keys generalizing s c with
  | nil => simp [Store.delLoop]
  | cons key rest ih =>
    simp only [Store.delLoop]
    cases hk : s.data.get key with
    | none =>
      simp only [ih]
      by_cases hm : key ∈ rest
      · rw [List.dedup_cons_of_mem hm]
      · rw [List.dedup_cons_of_not_mem hm]
        simp [List.countP_cons, hk]
    | some v =>
      simp only [ih]
      have hp : ∀ k, ((GoMap.delete s.data key).get k).isSome
          = ((s.data.get k).isSome && decide (k ≠ key)) := by
        intro k
        by_cases e : k = key
        · subst e
          simp [GoMap.get_delete_self]
        · simp [e, GoMap.get_delete_ne _ _ _ e]
      simp only [hp]
      have hsplit := countP_split_key (fun k => (s.data.get k).isSome) key rest.dedup
        (List.nodup_dedup rest)
      by_cases hm : key ∈ rest
      · rw [List.dedup_cons_of_mem hm, hsplit]
        simp [hm, hk]
        omega
      · rw [List.dedup_cons_of_not_mem hm]
        simp only [List.countP_cons, hk, Option.isSome_some, if_true]
        rw [hsplit]
        simp [hm]
        omega

/-- C10. `Store.Del(keys...)` on a store that satisfies invariant I2 returns the
number of distinct keys among its arguments that had a value before the call;
afterwards no argument key is in the value map or in the expiration map, `Get`
of each reports not-found at every instant, and every key that is not an
argument keeps its value and its expiration. -/
theorem Del_spec (s : Store) (keys : List Bytes) (hI : s.Inv) :
    (s.Del keys).2 = (keys.dedup.filter (fun k => (s.data.get k).isSome)).length ∧
    (∀ k ∈ keys, (s.Del keys).1.data.get k = none ∧ (s.Del keys).1.expiry.get k = none ∧
      ∀ now, ((s.Del keys).1.Get now k).2 = none) ∧
    (∀ k, k ∉ keys → (s.Del keys).1.data.get k = s.data.get k ∧
      (s.Del keys).1.expiry.get k = s.expiry.get k) := by
  refine ⟨?_, ?_, ?_⟩
  · simp only [Store.Del, delLoop_count, Nat.zero_add]
  · intro k hk
    have hd : (s.Del keys).1.data.get k = none := by
      simp only [Store.Del, delLoop_data_get, hk, if_true]
    have he : (s.Del keys).1.expiry.get k = none := by
      simp only [Store.Del, delLoop_expiry_get, hk, true_and]
      split
      · rfl
      · rename_i hn
        apply hI
        cases hg : s.data.get k with
        | none => rfl
        | some v => simp [hg] at hn
    refine ⟨hd, he, ?_⟩
    intro now
    simp only [Store.Get, he, hd]
  · intro k hk
    simp only [Store.Del, delLoop_data_get, delLoop_expiry_get, hk, if_false, false_and]
    exact ⟨trivial, trivial⟩

theorem Inv_example : Store.Inv ⟨[(lit "k", lit "v")], []⟩ := fun _ _ => rfl

/-- Witness of C10: `Del("k", "k", "z")` on the store that holds only `k`. -/
theorem Del_spec_witness :
    Store.Inv ⟨[(lit "k", lit "v")], []⟩ ∧
    (Store.Del ⟨[(lit "k", lit "v")], []⟩ [lit "k", lit "k", lit "z"]).2 = 1 ∧
    (Store.Del ⟨[(lit "k", lit "v")], []⟩ [lit "k", lit "k", lit "z"]).2
      = ([lit "k", lit "k", lit "z"].dedup.filter
          (fun k => (GoMap.get [(lit "k", lit "v")] k).isSome)).length ∧
    (∀ k ∈ [lit "k", lit "k", lit "z"],
      (Store.Del ⟨[(lit "k", lit "v")], []⟩ [lit "k", lit "k", lit "z"]).1.data.get k = none ∧
      (Store.Del ⟨[(lit "k", lit "v")], []⟩ [lit "k", lit "k", lit "z"]).1.expiry.get k = none ∧
      ∀ now,
        ((Store.Del ⟨[(lit "k", lit "v")], []⟩ [lit "k", lit "k", lit "z"]).1.Get now k).2
          = none) ∧
    (∀ k, k ∉ [lit "k", lit "k", lit "z"] →
      (Store.Del ⟨[(lit "k", lit "v")], []⟩ [lit "k", lit "k", lit "z"]).1.data.get k
        = GoMap.get [(lit "k", lit "v")] k ∧
      (Store.Del ⟨[(lit "k", lit "v")], []⟩ [lit "k", lit "k", lit "z"]).1.expiry.get k
        = GoMap.get ([] : GoMap Time) k) :=
  ⟨Inv_example, by decide,
    Del_spec ⟨[(lit "k", lit "v")], []⟩ [lit "k", lit "k", lit "z"] Inv_example⟩

/-! ## Reply frames -/

theorem countCRLF_append_CRLF (t : Bytes) : countCRLF (t ++ CRLF) = countCRLF t + 1 := by
  induction t with
  | nil => decide
  | cons a r ih =>
    cases r with
    | nil =>
      have h : ¬ (a = 13 ∧ (13 : Byte) = 10) := fun x => absurd x.2 (by decide)
      simp only [CRLF, List.cons_append, List.nil_append, countCRLF, h, if_false]
      decide
    | cons b r2 =>
      have e : (a :: b :: r2) ++ CRLF = a :: b :: (r2 ++ CRLF) := rfl
      have e2 : (b :: r2) ++ CRLF = b :: (r2 ++ CRLF) := rfl
      rw [e, countCRLF, ← e2, ih, countCRLF]
      omega

theorem countCRLF_cons_ne (a : Byte) (t : Bytes) (h : a ≠ 13) :
    countCRLF (a :: t) = countCRLF t := by
  cases t with
  | nil => rfl
  | cons b r => simp [countCRLF, h]

theorem countCRLF_no_CR (t : Bytes) (h : ∀ c ∈ t, c ≠ 13) : countCRLF t = 0 := by
  induction t with
  | nil => rfl
  | cons a r ih =>
    rw [countCRLF_cons_ne a r (h a (List.mem_cons_self _ _))]
    exact ih (fun c hc => h c (List.mem_cons_of_mem _ hc))

theorem isSuffixOf_append_CRLF (x : Bytes) : CRLF.isSuffixOf (x ++ CRLF) = true :=
  List.isSuffixOf_iff_suffix.2 (List.suffix_append _ _)

theorem SingleLine_tagged (tag : Byte) (text : Bytes) (ht : tag ≠ 13)
    (h : countCRLF text = 0) : SingleLine (tag :: text ++ CRLF) := by
  refine ⟨isSuffixOf_append_CRLF (tag :: text), ?_⟩
  rw [countCRLF_append_CRLF, countCRLF_cons_ne tag text ht, h]

theorem FormatInt_no_CR (n : Int) : ∀ c ∈ FormatInt n, c ≠ 13 := by
  intro c hc e
  have hd : ∀ m, c ∈ formatNat m → False := by
    intro m hm
    have := formatNat_digits m c hm
    rw [e] at this
    exact absurd this.1 (by decide)
  simp only [FormatInt] at hc
  split at hc
  · rcases List.mem_cons.1 hc with h | h
    · rw [e] at h
      exact absurd h (by decide)
    · exact hd _ h
  · exact hd _ hc

/-! ## The errors of `readArray` -/

theorem ReadString_error (d : Byte) (s : Bytes) (e : RErr) (rest : Bytes)
    (h : ReadString d s = (.error e, rest)) : e = .eof := by
  induction s generalizing e rest with
  | nil =>
    simp only [ReadString, Prod.mk.injEq, Except.error.injEq] at h
    exact h.1.symm
  | cons b r ih =>
    simp only [ReadString] at h
    split at h
    · simp at h
    · split at h
      · simp at h
      · rename_i e1 rest1 heq
        simp only [Prod.mk.injEq, Except.error.injEq] at h
        rw [← h.1]
        exact ih e1 rest1 heq

theorem readBulkString_error (s : Bytes) (e : RErr) (rest : Bytes)
    (h : readBulkString s = (.error e, rest)) : BulkError e := by
  unfold readBulkString at h
  cases s with
  | nil =>
    simp only [ReadByte, Prod.mk.injEq, Except.error.injEq] at h
    exact Or.inl h.1.symm
  | cons c s1 =>
    simp only [ReadByte] at h
    split at h
    · simp only [Prod.mk.injEq, Except.error.injEq] at h
      exact Or.inr (Or.inr (Or.inr ⟨c, h.1.symm⟩))
    · split at h
      · rename_i e1 s2 heq
        simp only [Prod.mk.injEq, Except.error.injEq] at h
        rw [← h.1]
        exact Or.inl (ReadString_error _ _ _ _ heq)
      · split at h
        · simp only [Prod.mk.injEq, Except.error.injEq] at h
          exact Or.inr (Or.inr (Or.inl h.1.symm))
        · split at h
          · simp at h
          · simp only [ReadFull, Discard] at h
            split at h
            · rename_i e3 s3 heq
              simp only [Prod.mk.injEq, Except.error.injEq] at h
              rw [← h.1]
              split at heq
              · simp at heq
              · split at heq
                · simp only [Prod.mk.injEq, Except.error.injEq] at heq
                  exact Or.inl heq.1.symm
                · split at heq
                  · simp only [Prod.mk.injEq, Except.error.injEq] at heq
                    exact Or.inr (Or.inl heq.1.symm)
                  · simp at heq
            · split at h
              · rename_i e4 s4 heq
                simp only [Prod.mk.injEq, Except.error.injEq] at h
                rw [← h.1]
                split at heq
                · simp only [Prod.mk.injEq, Except.error.injEq] at heq
                  exact Or.inl heq.1.symm
                · simp at heq
              · simp at h

theorem readElems_error (n : Nat) (acc : List Bytes) (s : Bytes) (e : RErr) (rest : Bytes)
    (h : readElems n acc s = (.error e, rest)) : BulkError e := by
  induction n generalizing acc s with
  | zero => simp [readElems] at h
  | succ m ih =>
    simp only [readElems] at h
    split at h
    · rename_i e1 s1 heq
      simp only [Prod.mk.injEq, Except.error.injEq] at h
      rw [← h.1]
      exact readBulkString_error _ _ _ heq
    · exact ih _ _ h

theorem readArray_error (s : Bytes) (e : RErr) (rest : Bytes)
    (h : readArray s = (.error e, rest)) :
    BulkError e ∨ e = .msg (lit "invalid array length") ∨
      ∃ c : Byte, e = .msg (lit "expected '*', got '" ++ fmtC c ++ lit "'") := by
  unfold readArray at h
  cases s with
  | nil =>
    simp only [ReadByte, Prod.mk.injEq, Except.error.injEq] at h
    exact Or.inl (Or.inl h.1.symm)
  | cons c s1 =>
    simp only [ReadByte] at h
    split at h
    · simp only [Prod.mk.injEq, Except.error.injEq] at h
      exact Or.inr (Or.inr ⟨c, h.1.symm⟩)
    · split at h
      · rename_i e1 s2 heq
        simp only [Prod.mk.injEq, Except.error.injEq] at h
        rw [← h.1]
        exact Or.inl (Or.inl (ReadString_error _ _ _ _ heq))
      · split at h
        · simp only [Prod.mk.injEq, Except.error.injEq] at h
          exact Or.inr (Or.inl h.1.symm)
        · split at h
          · simp only [Prod.mk.injEq, Except.error.injEq] at h
            exact Or.inr (Or.inl h.1.symm)
          · exact Or.inl (readElems_error _ _ _ _ _ h)

set_option maxRecDepth 100000 in
theorem SingleLine_expected_star (c : Byte) :
    SingleLine (writeError (lit "ERR " ++ (lit "expected '*', got '" ++ fmtC c ++ lit "'"))) ∧
    (10 ∈ lit "expected '*', got '" ++ fmtC c ++ lit "'" → c = 10) := by
  revert c
  decide

set_option maxRecDepth 100000 in
theorem SingleLine_expected_dollar (c : Byte) :
    SingleLine (writeError (lit "ERR " ++ (lit "expected '$', got '" ++ fmtC c ++ lit "'"))) ∧
    (10 ∈ lit "expected '$', got '" ++ fmtC c ++ lit "'" → c = 10) := by
  revert c
  decide

theorem SingleLine_BulkError (e : RErr) (h : BulkError e) (hne : e ≠ .eof) :
    SingleLine (writeError (lit "ERR " ++ e.Error)) ∧
    (10 ∈ e.Error → e = .msg (lit "expected '$', got '\n'")) := by
  rcases h with h | h | h | ⟨c, h⟩
  · exact absurd h hne
  · subst h
    decide
  · subst h
    decide
  · subst h
    refine ⟨(SingleLine_expected_dollar c).1, ?_⟩
    intro h10
    have hc := (SingleLine_expected_dollar c).2 h10
    subst hc
    rfl

/-! ## Malformed lengths -/

theorem readElems_encodeBulks_add (args : List Bytes) (m : Nat) (acc : List Bytes)
    (rest : Bytes) (h : ∀ a ∈ args, a.length < 2 ^ 63) :
    readElems (args.length + m) acc (encodeBulks args ++ rest) = readElems m (acc ++ args) rest := by
  induction args generalizing acc with
  | nil => simp [encodeBulks]
  | cons a r ih =>
    have ha := h a (List.mem_cons_self _ _)
    have hr := ih (acc ++ [a]) (fun x hx => h x (List.mem_cons_of_mem _ hx))
    have e : (a :: r).length + m = (r.length + m) + 1 := by
      simp only [List.length_cons]
      omega
    rw [e]
    simp only [readElems, encodeBulks, List.append_assoc, readBulkString_encodeBulk a _ ha]
    simpa using hr

theorem readArray_commandHeader (n : Nat) (body : Bytes) (hn : n < 2 ^ 63) :
    readArray (commandHeader n ++ body) = readElems n [] body := by
  have e1 : commandHeader n ++ body = (42 : Byte) :: (formatNat n ++ CRLF ++ body) := by
    simp [commandHeader, lit, FormatInt_natCast, Fin.ofNat]
  have e2 := ReadString_formatNat n body
  have e3 := TrimSuffix_append_CRLF (formatNat n)
  have e4 := Atoi_formatNat n hn
  rw [e1]
  simp only [readArray, ReadByte, ne_eq, not_true_eq_false, if_false, e2, e3, e4]
  rw [if_neg (by omega)]
  simp only [Int.toNat_ofNat]

/-! ## Truncated frames -/

theorem ReadString_no_delim (d : Byte) (l : Bytes) (h : ∀ c ∈ l, c ≠ d) :
    ReadString d l = (.error .eof, []) := by
  induction l with
  | nil => rfl
  | cons c r ih =>
    have hc : c ≠ d := h c (List.mem_cons_self _ _)
    have hr := ih (fun x hx => h x (List.mem_cons_of_mem _ hx))
    simp only [ReadString, hc, if_false]
    rw [hr]

theorem prefix_of_snoc (p w X : Bytes) (d : Byte) (h : p ++ w = X ++ [d]) (hw : w ≠ []) :
    ∃ t, X = p ++ t := by
  rcases List.append_eq_append_iff.1 h with ⟨t, ht, _⟩ | ⟨c, hc, hd⟩
  · exact ⟨t, ht⟩
  · have hlen := congrArg List.length hd
    simp only [List.length_singleton, List.length_append] at hlen
    have hwl : 0 < w.length := List.length_pos.2 hw
    have hc0 : c = [] := List.length_eq_zero.1 (by omega)
    subst hc0
    exact ⟨[], by simpa using hc.symm⟩

theorem header_proper_start (tag : Byte) (ds p w : Bytes) (hd : ∀ c ∈ ds, c ≠ 10)
    (h : p ++ w = tag :: (ds ++ CRLF)) (hw : w ≠ []) :
    p = [] ∨ ∃ p2, p = tag :: p2 ∧ ∀ c ∈ p2, c ≠ 10 := by
  cases p with
  | nil => exact Or.inl rfl
  | cons c p2 =>
    right
    simp only [List.cons_append, List.cons.injEq] at h
    obtain ⟨hc, h2⟩ := h
    subst hc
    refine ⟨p2, rfl, ?_⟩
    have h3 : p2 ++ w = (ds ++ [13]) ++ [10] := by simpa [CRLF] using h2
    obtain ⟨t, ht⟩ := prefix_of_snoc p2 w (ds ++ [13]) 10 h3 hw
    intro x hx e
    have hmem : x ∈ ds ++ [13] := by
      rw [ht]
      exact List.mem_append_left _ hx
    rcases List.mem_append.1 hmem with h1 | h1
    · exact hd x h1 e
    · simp only [List.mem_singleton] at h1
      rw [h1] at e
      exact absurd e (by decide)

theorem formatNat_no_LF (n : Nat) : ∀ c ∈ formatNat n, c ≠ 10 := by
  intro c hc e
  have := formatNat_digits n c hc
  rw [e] at this
  exact absurd this.1 (by decide)

theorem readBulkString_no_LF (p2 : Bytes) (h : ∀ c ∈ p2, c ≠ 10) :
    readBulkString ((36 : Byte) :: p2) = (.error .eof, []) := by
  simp only [readBulkString, ReadByte, ne_eq, not_true_eq_false, if_false,
    ReadString_no_delim 10 p2 h]

theorem readArray_no_LF (p2 : Bytes) (h : ∀ c ∈ p2, c ≠ 10) :
    readArray ((42 : Byte) :: p2) = (.error .eof, []) := by
  simp only [readArray, ReadByte, ne_eq, not_true_eq_false, if_false,
    ReadString_no_delim 10 p2 h]

theorem readBulkString_bulkHeader (a body : Bytes) (h : a.length < 2 ^ 63) :
    readBulkString (bulkHeader a ++ body) =
      match ReadFull a.length body with
      | (.error e, s3) => (.error e, s3)
      | (.ok buf, s3) =>
        match Discard 2 s3 with
        | (.error e, s4) => (.error e, s4)
        | (.ok _, s4) => (.ok buf, s4) := by
  have e1 : bulkHeader a ++ body = (36 : Byte) :: (formatNat a.length ++ CRLF ++ body) := by
    simp [bulkHeader, lit, FormatInt_natCast, Fin.ofNat]
  have e2 := ReadString_formatNat a.length body
  have e3 := TrimSuffix_append_CRLF (formatNat a.length)
  have e4 := Atoi_formatNat a.length h
  rw [e1]
  simp only [readBulkString, ReadByte, ne_eq, not_true_eq_false, if_false, e2, e3, e4]
  rw [if_neg (by omega)]
  simp only [Int.toNat_ofNat]

theorem bulkHeader_eq (a : Bytes) : bulkHeader a = (36 : Byte) :: (formatNat a.length ++ CRLF) := by
  simp [bulkHeader, lit, FormatInt_natCast, Fin.ofNat]

theorem commandHeader_eq (n : Nat) : commandHeader n = (42 : Byte) :: (formatNat n ++ CRLF) := by
  simp [commandHeader, lit, FormatInt_natCast, Fin.ofNat]

theorem readBulkString_cut_in_payload (a : Bytes) (j : Nat) (h : a.length < 2 ^ 63)
    (h0 : 0 < j) (hj : j < a.length) :
    readBulkString (bulkHeader a ++ a.take j) = (.error .unexpectedEOF, []) := by
  rw [readBulkString_bulkHeader a _ h]
  have hlen : (a.take j).length = j := by
    rw [List.length_take]
    omega
  have hne : a.take j ≠ [] := by
    intro e
    rw [e] at hlen
    simp at hlen
    omega
  simp only [ReadFull, hlen, hne, if_false]
  rw [if_neg (by omega), if_pos hj]

theorem readBulkString_truncated (a p q : Bytes) (h : a.length < 2 ^ 63)
    (hpq : p ++ q = encodeBulk a) (hq : q ≠ []) :
    readBulkString p = (.error .eof, []) ∨
      ∃ j, 0 < j ∧ j < a.length ∧ p = bulkHeader a ++ a.take j := by
  rcases List.append_eq_append_iff.1 (show p ++ q = bulkHeader a ++ (a ++ CRLF) from hpq) with
    ⟨w, hw, _⟩ | ⟨body, hp, hbody⟩
  · by_cases hw0 : w = []
    · subst hw0
      have hp : p = bulkHeader a := by simpa using hw.symm
      left
      rw [hp]
      have := readBulkString_bulkHeader a [] h
      simp only [List.append_nil] at this
      rw [this]
      cases a with
      | nil => simp [ReadFull, Discard]
      | cons c r => simp [ReadFull]
    · left
      rw [bulkHeader_eq] at hw
      rcases header_proper_start 36 (formatNat a.length) p w (formatNat_no_LF _) hw.symm hw0 with
        h1 | ⟨p2, h1, h2⟩
      · rw [h1]
        rfl
      · rw [h1]
        exact readBulkString_no_LF p2 h2
  · rw [hp, readBulkString_bulkHeader a body h]
    rcases List.append_eq_append_iff.1 hbody with ⟨w, hw, hq2⟩ | ⟨c2, hc2, hcr⟩
    · -- `a ++ w = body`, and `CRLF = w ++ q`: the cut is inside the trailing CRLF
      left
      have hwl : w.length < 2 := by
        have hlen := congrArg List.length hq2
        simp only [CRLF, List.length_cons, List.length_nil, List.length_append] at hlen
        have : 0 < q.length := List.length_pos.2 hq
        omega
      rw [hw, ReadFull_append]
      simp only [Discard, hwl, if_true]
    · -- `a = body ++ c2`: the cut is inside the payload or right before it
      by_cases hc0 : c2 = []
      · subst hc0
        left
        have hb : body = a := by simpa using hc2.symm
        rw [hb]
        have := ReadFull_append a []
        simp only [List.append_nil] at this
        rw [this]
        simp [Discard]
      · have hlen : a.length = body.length + c2.length := by
          rw [hc2, List.length_append]
        have hc2l : 0 < c2.length := List.length_pos.2 hc0
        by_cases hb0 : body = []
        · left
          subst hb0
          have hn : a.length ≠ 0 := by
            simp only [List.length_nil] at hlen
            omega
          simp only [ReadFull, hn, if_false, if_true]
        · right
          have hbl : 0 < body.length := List.length_pos.2 hb0
          refine ⟨body.length, hbl, by omega, ?_⟩
          rw [hc2, List.take_left]

theorem encodeBulks_append (xs ys : List Bytes) :
    encodeBulks (xs ++ ys) = encodeBulks xs ++ encodeBulks ys := by
  induction xs with
  | nil => rfl
  | cons a r ih =>
    rw [List.cons_append]
    simp only [encodeBulks, ih, List.append_assoc]

theorem readElems_truncated (args : List Bytes) (acc : List Bytes) (p q : Bytes)
    (h : ∀ a ∈ args, a.length < 2 ^ 63) (hpq : p ++ q = encodeBulks args) (hq : q ≠ []) :
    readElems args.length acc p = (.error .eof, []) ∨
      ∃ pre a post j, args = pre ++ a :: post ∧ 0 < j ∧ j < a.length ∧
        p = encodeBulks pre ++ bulkHeader a ++ a.take j := by
  induction args generalizing acc p with
  | nil =>
    simp only [encodeBulks, List.append_eq_nil] at hpq
    exact absurd hpq.2 hq
  | cons a r ih =>
    have ha := h a (List.mem_cons_self _ _)
    have hr : ∀ x ∈ r, x.length < 2 ^ 63 := fun x hx => h x (List.mem_cons_of_mem _ hx)
    have first : ∀ w, w ≠ [] → p ++ w = encodeBulk a →
        readElems (a :: r).length acc p = (.error .eof, []) ∨
          ∃ pre a2 post j, a :: r = pre ++ a2 :: post ∧ 0 < j ∧ j < a2.length ∧
            p = encodeBulks pre ++ bulkHeader a2 ++ a2.take j := by
      intro w hw0 hw
      rcases readBulkString_truncated a p w ha hw hw0 with h1 | ⟨j, h0, hj, hp⟩
      · left
        simp only [List.length_cons, readElems, h1]
      · right
        exact ⟨[], a, r, j, rfl, h0, hj, by simpa [encodeBulks] using hp⟩
    rcases List.append_eq_append_iff.1 (show p ++ q = encodeBulk a ++ encodeBulks r from hpq) with
      ⟨w, hw, hq2⟩ | ⟨body, hp, hbody⟩
    · by_cases hw0 : w = []
      · -- `p` is the whole first element: the rest of the elements is missing
        subst hw0
        have hp : p = encodeBulk a ++ [] := by simpa using hw.symm
        have hq3 : ([] : Bytes) ++ q = encodeBulks r := by
          rw [hq2]
          rfl
        rcases ih (acc ++ [a]) [] hr hq3 with h1 | ⟨pre, a2, post, j, hargs, h0, hj, hp2⟩
        · left
          rw [hp]
          simp only [List.length_cons, readElems, readBulkString_encodeBulk a [] ha]
          exact h1
        · exfalso
          have hlen := congrArg List.length hp2
          simp only [bulkHeader_eq, List.length_append, List.length_cons, List.length_nil]
            at hlen
          omega
      · exact first w hw0 hw.symm
    · rcases ih (acc ++ [a]) body hr hbody.symm with h1 | ⟨pre, a2, post, j, hargs, h0, hj, hp2⟩
      · left
        rw [hp]
        simp only [List.length_cons, readElems, readBulkString_encodeBulk a body ha]
        exact h1
      · right
        refine ⟨a :: pre, a2, post, j, by rw [hargs]; rfl, h0, hj, ?_⟩
        rw [hp, hp2]
        simp only [encodeBulks, List.append_assoc]

theorem readArray_cut_in_payload (pre : List Bytes) (a : Bytes) (post : List Bytes) (j : Nat)
    (hn : (pre ++ a :: post).length < 2 ^ 63) (h : ∀ x ∈ pre ++ a :: post, x.length < 2 ^ 63)
    (h0 : 0 < j) (hj : j < a.length) :
    readArray (commandHeader (pre ++ a :: post).length ++ encodeBulks pre ++ bulkHeader a
        ++ a.take j) = (.error .unexpectedEOF, []) := by
  have hpre : ∀ x ∈ pre, x.length < 2 ^ 63 := fun x hx => h x (List.mem_append_left _ hx)
  have ha : a.length < 2 ^ 63 := h a (List.mem_append_right _ (List.mem_cons_self _ _))
  have e : (pre ++ a :: post).length = pre.length + (post.length + 1) := by
    simp only [List.length_append, List.length_cons]
  rw [List.append_assoc, List.append_assoc, readArray_commandHeader _ _ hn, e,
    readElems_encodeBulks_add pre _ [] _ hpre]
  simp only [readElems, readBulkString_cut_in_payload a j ha h0 hj]

theorem readArray_truncated (args : List Bytes) (p q : Bytes)
    (hn : args.length < 2 ^ 63) (h : ∀ a ∈ args, a.length < 2 ^ 63)
    (hpq : p ++ q = encodeCommand args) (hq : q ≠ []) :
    readArray p = (.error .eof, []) ∨
      ∃ pre a post j, args = pre ++ a :: post ∧ 0 < j ∧ j < a.length ∧
        p = commandHeader args.length ++ encodeBulks pre ++ bulkHeader a ++ a.take j := by
  rcases List.append_eq_append_iff.1
      (show p ++ q = commandHeader args.length ++ encodeBulks args from hpq) with
    ⟨w, hw, hq2⟩ | ⟨body, hp, hbody⟩
  · by_cases hw0 : w = []
    · subst hw0
      have hp : p = commandHeader args.length ++ [] := by simpa using hw.symm
      have hq3 : ([] : Bytes) ++ q = encodeBulks args := by
        rw [hq2]
        rfl
      rcases readElems_truncated args [] [] q h hq3 hq with
        h1 | ⟨pre, a2, post, j, hargs, h0, hj, hp2⟩
      · left
        rw [hp, readArray_commandHeader _ _ hn]
        exact h1
      · exfalso
        have hlen := congrArg List.length hp2
        simp only [bulkHeader_eq, List.length_append, List.length_cons, List.length_nil]
          at hlen
        omega
    · left
      rw [commandHeader_eq] at hw
      rcases header_proper_start 42 (formatNat args.length) p w (formatNat_no_LF _) hw.symm hw0
        with h1 | ⟨p2, h1, h2⟩
      · rw [h1]
        rfl
      · rw [h1]
        exact readArray_no_LF p2 h2
  · rcases readElems_truncated args [] body q h hbody.symm hq with
      h1 | ⟨pre, a2, post, j, hargs, h0, hj, hp2⟩
    · left
      rw [hp, readArray_commandHeader _ _ hn]
      exact h1
    · right
      refine ⟨pre, a2, post, j, hargs, h0, hj, ?_⟩
      rw [hp, hp2]
      simp only [List.append_assoc]

/-! ## Lookups in filtered maps -/

theorem GoMap.get_filter_key {V : Type} (m : GoMap V) (q : Bytes → Bool) (k : Bytes) :
    GoMap.get (m.filter (fun p => q p.1)) k = if q k = true then m.get k else none := by
  induction m with
  | nil => simp [GoMap.get]
  | cons p r ih =>
    obtain ⟨k1, v⟩ := p
    by_cases h : k1 = k
    · subst h
      cases hq : q k1
      · simp only [List.filter, hq, ih]
        simp
      · simp only [List.filter, hq, GoMap.get, if_true]
    · cases hq : q k1
      · simp only [List.filter, hq, ih, GoMap.get, h, if_false]
      · simp only [List.filter, hq, GoMap.get, h, if_false, ih]

theorem GoMap.get_eq_none_iff {V : Type} (m : GoMap V) (k : Bytes) :
    m.get k = none ↔ ∀ e ∈ m, e.1 ≠ k := by
  induction m with
  | nil => simp [GoMap.get]
  | cons p r ih =>
    obtain ⟨k1, v⟩ := p
    by_cases h : k1 = k
    · simp [GoMap.get, h]
    · simp [GoMap.get, h, ih]

theorem GoMap.mem_of_get {V : Type} (m : GoMap V) (k : Bytes) (v : V) (h : m.get k = some v) :
    (k, v) ∈ m := by
  induction m with
  | nil => simp [GoMap.get] at h
  | cons p r ih =>
    obtain ⟨k1, v1⟩ := p
    by_cases hk : k1 = k
    · simp only [GoMap.get, hk, if_true, Option.some.injEq] at h
      rw [hk, h]
      exact List.mem_cons_self _ _
    · simp only [GoMap.get, hk, if_false] at h
      exact List.mem_cons_of_mem _ (ih h)

theorem GoMap.get_of_mem {V : Type} (m : GoMap V) (k : Bytes) (v : V) (hwf : m.WF)
    (h : (k, v) ∈ m) : m.get k = some v := by
  induction m with
  | nil => simp at h
  | cons p r ih =>
    obtain ⟨k1, v1⟩ := p
    have hnd : k1 ∉ r.map Prod.fst ∧ (r.map Prod.fst).Nodup := by
      simpa [GoMap.WF] using hwf
    rcases List.mem_cons.1 h with h1 | h1
    · simp only [Prod.mk.injEq] at h1
      simp [GoMap.get, h1.1, h1.2]
    · have hk : k1 ≠ k := by
        intro e
        apply hnd.1
        rw [e]
        exact List.mem_map.2 ⟨(k, v), h1, rfl⟩
      simp only [GoMap.get, hk, if_false]
      exact ih hnd.2 h1

/-! ## `Store.Expire` -/

theorem timeSub_small (t u : Int) (h1 : 0 ≤ t - u) (h2 : t - u < 2 ^ 63) :
    timeSub t u = t - u := by
  unfold timeSub
  simp only [Time, Duration] at *
  rw [if_neg (by omega), if_neg (by omega)]

/-- C11. `Store.Expire(k, ttl)` at the instant `now`, for a `ttl` of the range
of the type `Duration`: when `k` has no value it returns false and leaves the
store as it was; when `k` has a value it returns true, leaves the value map as
it was, records `now + ttl` as the expiration of `k`, leaves the expiration of
every other key as it was, and `TTL(k)` at an instant `t` with
`now ≤ t ≤ now + ttl` returns `now + ttl - t`. -/
theorem Expire_spec (s : Store) (now : Time) (k : Bytes) (ttl : Duration)
    (httl : ttl < 2 ^ 63) :
    (s.data.get k = none → s.Expire now k ttl = (s, false)) ∧
    ((s.data.get k).isSome = true →
      (s.Expire now k ttl).2 = true ∧
      (s.Expire now k ttl).1.data = s.data ∧
      (s.Expire now k ttl).1.expiry.get k = some (now + ttl) ∧
      (∀ k2, k2 ≠ k → (s.Expire now k ttl).1.expiry.get k2 = s.expiry.get k2) ∧
      (∀ t, now ≤ t → t ≤ now + ttl → (s.Expire now k ttl).1.TTL t k = now + ttl - t)) := by
  constructor
  · intro h
    simp only [Store.Expire, h]
  · intro h
    obtain ⟨v, hv⟩ := Option.isSome_iff_exists.1 h
    have he : s.Expire now k ttl = (⟨s.data, s.expiry.set k (now + ttl)⟩, true) := by
      simp only [Store.Expire, hv]
    rw [he]
    refine ⟨rfl, rfl, GoMap.get_set_self _ _ _, ?_, ?_⟩
    · intro k2 hk2
      exact GoMap.get_set_ne _ _ _ _ hk2
    · intro t h1 h2
      simp only [Store.TTL, GoMap.get_set_self]
      simp only [Time, Duration] at *
      rw [if_neg (by omega)]
      exact timeSub_small _ _ (by omega) (by omega)

/-- Witness of C11: `Expire("k", 5)` at the instant 10 on the store that holds
`k`, and `TTL("k")` at the instant 12. -/
theorem Expire_spec_witness :
    (Store.Expire ⟨[(lit "k", lit "v")], []⟩ 10 (lit "k") 5).2 = true ∧
    (Store.Expire ⟨[(lit "k", lit "v")], []⟩ 10 (lit "k") 5).1.data = [(lit "k", lit "v")] ∧
    (Store.Expire ⟨[(lit "k", lit "v")], []⟩ 10 (lit "k") 5).1.expiry.get (lit "k")
      = some (10 + 5) ∧
    (∀ k2, k2 ≠ lit "k" →
      (Store.Expire ⟨[(lit "k", lit "v")], []⟩ 10 (lit "k") 5).1.expiry.get k2
        = GoMap.get ([] : GoMap Time) k2) ∧
    (∀ t, (10 : Time) ≤ t → t ≤ 10 + 5 →
      (Store.Expire ⟨[(lit "k", lit "v")], []⟩ 10 (lit "k") 5).1.TTL t (lit "k") = 10 + 5 - t) :=
  (Expire_spec ⟨[(lit "k", lit "v")], []⟩ 10 (lit "k") 5 (by decide)).2 (by decide)

/-- C12, the code at the failing input: the store reached from `NewStore` by
`SetEx("k", "v", 1s)` at the instant 0 still holds `k` in both maps at the
instant 2s, where `Get("k")` reports not-found; `Expire("k", 5s)` at that
instant returns true, and `Get("k")` at the same instant then returns `v`. -/
theorem expire_revives_expired_key :
    Store.run Store.NewStore [(0, .setEx (lit "k") (lit "v") Second)]
      = ⟨[(lit "k", lit "v")], [(lit "k", 1000000000)]⟩ ∧
    (Store.Get ⟨[(lit "k", lit "v")], [(lit "k", 1000000000)]⟩ 2000000000 (lit "k")).2 = none ∧
    (Store.Expire ⟨[(lit "k", lit "v")], [(lit "k", 1000000000)]⟩ 2000000000 (lit "k")
      (5 * Second)).2 = true ∧
    (Store.Get (Store.Expire ⟨[(lit "k", lit "v")], [(lit "k", 1000000000)]⟩ 2000000000
      (lit "k") (5 * Second)).1 2000000000 (lit "k")).2 = some (lit "v") := by
  decide

/-! ## The reaper -/

theorem delete_eq_filter {V : Type} (m : GoMap V) (k : Bytes) :
    GoMap.delete m k = m.filter (fun p => !decide (p.1 = k)) := by
  unfold GoMap.delete
  congr 1
  funext p
  simp

theorem reapLoop_eq (now : Time) (todo : List (Bytes × Time)) (s : Store) :
    Store.reapLoop now todo s
      = ⟨s.data.filter (fun p => !reaped now todo p.1),
          s.expiry.filter (fun p => !reaped now todo p.1)⟩ := by
  induction todo generalizing s with
  | nil => simp [Store.reapLoop, reaped]
  | cons e r ih =>
    obtain ⟨key, exp⟩ := e
    simp only [Store.reapLoop]
    split
    · rename_i h
      rw [ih]
      simp only [delete_eq_filter, List.filter_filter]
      have hq : ∀ k, (!reaped now ((key, exp) :: r) k) = (!reaped now r k && !decide (key = k)) := by
        intro k
        simp only [reaped, List.any_cons, h, decide_True, Bool.and_true, Bool.not_or]
        rw [Bool.and_comm]
      congr 1
      · apply List.filter_congr
        intro p _
        rw [hq]
        by_cases e : p.1 = key
        · simp [e]
        · have e2 : key ≠ p.1 := fun x => e x.symm
          simp [e, e2]
      · apply List.filter_congr
        intro p _
        rw [hq]
        by_cases e : p.1 = key
        · simp [e]
        · have e2 : key ≠ p.1 := fun x => e x.symm
          simp [e, e2]
    · rename_i h
      rw [ih]
      have hq : ∀ k, reaped now ((key, exp) :: r) k = reaped now r k := by
        intro k
        simp only [reaped, List.any_cons, h, decide_False, Bool.and_false, Bool.false_or]
      simp only [hq]

theorem reap_data_get (s : Store) (now : Time) (k : Bytes) :
    (s.cleanupExpiredKeys now).data.get k
      = if reaped now s.expiry k = true then none else s.data.get k := by
  simp only [Store.cleanupExpiredKeys, reapLoop_eq]
  rw [GoMap.get_filter_key s.data (fun x => !reaped now s.expiry x) k]
  cases reaped now s.expiry k <;> simp

theorem reap_expiry_get (s : Store) (now : Time) (k : Bytes) :
    (s.cleanupExpiredKeys now).expiry.get k
      = if reaped now s.expiry k = true then none else s.expiry.get k := by
  simp only [Store.cleanupExpiredKeys, reapLoop_eq]
  rw [GoMap.get_filter_key s.expiry (fun x => !reaped now s.expiry x) k]
  cases reaped now s.expiry k <;> simp

theorem reaped_iff_mem (now : Time) (m : GoMap Time) (k : Bytes) :
    reaped now m k = true ↔ ∃ exp, (k, exp) ∈ m ∧ now > exp := by
  simp only [reaped, List.any_eq_true, Bool.and_eq_true, decide_eq_true_eq]
  constructor
  · rintro ⟨⟨k1, exp⟩, hm, hk, hlt⟩
    simp only at hk hlt
    subst hk
    exact ⟨exp, hm, hlt⟩
  · rintro ⟨exp, hm, hlt⟩
    exact ⟨(k, exp), hm, rfl, hlt⟩

theorem reaped_iff_get (now : Time) (m : GoMap Time) (k : Bytes) (hwf : m.WF) :
    reaped now m k = true ↔ ∃ exp, m.get k = some exp ∧ now > exp := by
  rw [reaped_iff_mem]
  constructor
  · rintro ⟨exp, hm, hlt⟩
    exact ⟨exp, GoMap.get_of_mem m k exp hwf hm, hlt⟩
  · rintro ⟨exp, hg, hlt⟩
    exact ⟨exp, GoMap.mem_of_get m k exp hg, hlt⟩

theorem reaped_of_get_none (now : Time) (m : GoMap Time) (k : Bytes) (h : m.get k = none) :
    reaped now m k = false := by
  cases hr : reaped now m k with
  | false => rfl
  | true =>
    obtain ⟨exp, hm, _⟩ := (reaped_iff_mem now m k).1 hr
    exact absurd rfl ((GoMap.get_eq_none_iff m k).1 h (k, exp) hm)

/-! ## Invariants I1 and I2 -/

theorem Inv_NewStore : Store.NewStore.Inv := fun _ _ => rfl

theorem Inv_delete_both (s : Store) (key : Bytes) (h : s.Inv) :
    Store.Inv ⟨s.data.delete key, s.expiry.delete key⟩ := by
  intro k hk
  by_cases e : k = key
  · subst e
    exact GoMap.get_delete_self _ _
  · simp only [GoMap.get_delete_ne _ _ _ e] at hk ⊢
    exact h k hk

theorem Inv_Set (s : Store) (key : Bytes) (value : Value) (h : s.Inv) :
    (s.Set key value).Inv := by
  intro k hk
  by_cases e : k = key
  · subst e
    exact GoMap.get_delete_self _ _
  · simp only [Store.Set, GoMap.get_set_ne _ _ _ _ e, GoMap.get_delete_ne _ _ _ e] at hk ⊢
    exact h k hk

theorem Inv_SetEx (s : Store) (now : Time) (key : Bytes) (value : Value) (ttl : Duration)
    (h : s.Inv) : (s.SetEx now key value ttl).Inv := by
  intro k hk
  by_cases e : k = key
  · subst e
    simp [Store.SetEx, GoMap.get_set_self] at hk
  · simp only [Store.SetEx, GoMap.get_set_ne _ _ _ _ e] at hk ⊢
    exact h k hk

theorem Inv_Get (s : Store) (now : Time) (key : Bytes) (h : s.Inv) :
    (s.Get now key).1.Inv := by
  unfold Store.Get
  split
  · split
    · exact Inv_delete_both s key h
    · exact h
  · exact h

theorem Inv_delLoop (keys : List Bytes) (s : Store) (c : Nat) (h : s.Inv) :
    (Store.delLoop keys s c).1.Inv := by
  induction keys generalizing s c with
  | nil => exact h
  | cons key rest ih =>
    simp only [Store.delLoop]
    split
    · exact ih _ _ (Inv_delete_both s key h)
    · exact ih _ _ h

theorem Inv_Expire (s : Store) (now : Time) (key : Bytes) (ttl : Duration) (h : s.Inv) :
    (s.Expire now key ttl).1.Inv := by
  unfold Store.Expire
  split
  · exact h
  · rename_i v hv
    intro k hk
    by_cases e : k = key
    · subst e
      simp only at hk
      rw [hv] at hk
      exact absurd hk (by simp)
    · simp only [GoMap.get_set_ne _ _ _ _ e] at hk ⊢
      exact h k hk

theorem Inv_reap (s : Store) (now : Time) (h : s.Inv) : (s.cleanupExpiredKeys now).Inv := by
  intro k hk
  rw [reap_data_get] at hk
  rw [reap_expiry_get]
  split
  · rfl
  · rename_i hr
    rw [if_neg hr] at hk
    exact h k hk

theorem Inv_step (s : Store) (now : Time) (op : Op) (h : s.Inv) : (s.step now op).Inv := by
  cases op with
  | set key value => exact Inv_Set s key value h
  | setEx key value ttl => exact Inv_SetEx s now key value ttl h
  | get key => exact Inv_Get s now key h
  | del ks => exact Inv_delLoop ks s 0 h
  | expire key ttl => exact Inv_Expire s now key ttl h
  | ttl key => exact h
  | keys => exact h
  | flushDB => exact Inv_NewStore
  | reap => exact Inv_reap s now h

theorem Inv_run (ops : List (Time × Op)) (s : Store) (h : s.Inv) : (s.run ops).Inv := by
  induction ops generalizing s with
  | nil => exact h
  | cons p rest ih =>
    obtain ⟨now, op⟩ := p
    exact ih _ (Inv_step s now op h)

/-- C16. Invariants I1/I2: after every finite sequence of `Set`, `SetEx`,
`Get`, `Del`, `Expire`, `TTL`, `Keys`, `FlushDB` and reaper ticks, run one at
a time from the store built by `NewStore` at any instants (non-decreasing or
not), every key of the expiration map is a key of the value map, and a key
absent from the value map is absent from the expiration map. -/
theorem invariants_I1_I2 (ops : List (Time × Op)) (k : Bytes) :
    (((Store.run Store.NewStore ops).expiry.get k).isSome = true →
      ((Store.run Store.NewStore ops).data.get k).isSome = true) ∧
    ((Store.run Store.NewStore ops).data.get k = none →
      (Store.run Store.NewStore ops).expiry.get k = none) := by
  have h := Inv_run ops Store.NewStore Inv_NewStore
  refine ⟨?_, h k⟩
  intro he
  cases hd : (Store.run Store.NewStore ops).data.get k with
  | some v => rfl
  | none =>
    rw [h k hd] at he
    exact absurd he (by simp)

/-- Witness of C16: a key set with an expiration, read after the expiration
has passed, set again, given an expiration and then reaped. -/
theorem invariants_I1_I2_witness :
    (((Store.run Store.NewStore
        [(0, .setEx (lit "k") (lit "v") 5), (9, .get (lit "k")), (9, .set (lit "k") (lit "w")),
          (10, .expire (lit "k") 1), (20, .reap)]).expiry.get (lit "k")).isSome = true →
      ((Store.run Store.NewStore
        [(0, .setEx (lit "k") (lit "v") 5), (9, .get (lit "k")), (9, .set (lit "k") (lit "w")),
          (10, .expire (lit "k") 1), (20, .reap)]).data.get (lit "k")).isSome = true) ∧
    ((Store.run Store.NewStore
        [(0, .setEx (lit "k") (lit "v") 5), (9, .get (lit "k")), (9, .set (lit "k") (lit "w")),
          (10, .expire (lit "k") 1), (20, .reap)]).data.get (lit "k") = none →
      (Store.run Store.NewStore
        [(0, .setEx (lit "k") (lit "v") 5), (9, .get (lit "k")), (9, .set (lit "k") (lit "w")),
          (10, .expire (lit "k") 1), (20, .reap)]).expiry.get (lit "k") = none) :=
  invariants_I1_I2
    [(0, .setEx (lit "k") (lit "v") 5), (9, .get (lit "k")), (9, .set (lit "k") (lit "w")),
      (10, .expire (lit "k") 1), (20, .reap)] (lit "k")

/-! ## Reads -/

theorem Get_snd (s : Store) (now : Time) (k : Bytes) :
    (s.Get now k).2 = if s.expired now k = true then none else s.data.get k := by
  unfold Store.Get Store.expired
  cases s.expiry.get k with
  | none => simp
  | some exp =>
    by_cases h : now > exp
    · simp [h]
    · simp [h]

theorem Keys_aux (s : Store) (now : Time) (l : GoMap Value) :
    l.filterMap (fun p =>
        match s.expiry.get p.1 with
        | some exp => if now > exp then none else some p.1
        | none => some p.1)
      = (l.map Prod.fst).filter (fun k => !s.expired now k) := by
  induction l with
  | nil => rfl
  | cons p r ih =>
    rw [List.filterMap_cons, List.map_cons, List.filter_cons, ih]
    cases he : s.expiry.get p.1 with
    | none =>
      have hx : s.expired now p.1 = false := by simp [Store.expired, he]
      simp only [hx, Bool.not_false, if_true]
    | some exp =>
      by_cases h : now > exp
      · have hx : s.expired now p.1 = true := by simp [Store.expired, he, h]
        simp only [hx, h, if_true, Bool.not_true]
        rfl
      · have hx : s.expired now p.1 = false := by simp [Store.expired, he, h]
        simp only [hx, h, if_false, Bool.not_false, if_true]

theorem Keys_eq (s : Store) (now : Time) :
    s.Keys now = (s.data.map Prod.fst).filter (fun k => !s.expired now k) :=
  Keys_aux s now s.data

theorem GoMap.mem_keys_iff {V : Type} (m : GoMap V) (k : Bytes) :
    k ∈ m.map Prod.fst ↔ (m.get k).isSome = true := by
  induction m with
  | nil => simp [GoMap.get]
  | cons p r ih =>
    obtain ⟨k1, v⟩ := p
    by_cases h : k1 = k
    · simp [GoMap.get, h]
    · have h2 : k ≠ k1 := fun e => h e.symm
      simp [GoMap.get, h, h2, ih]

/-- C17. Lazy expiry is consistent across reads: on a store whose value map
holds each key once (as a Go map does), at every instant `now`, `Keys()`
contains `k` if and only if `Get(k)` reports found, it contains no key twice
(so `k` occurs exactly once when found), and a key whose recorded expiration
is before `now` is neither in `Keys()` nor found by `Get`. -/
theorem Keys_iff_Get (s : Store) (now : Time) (k : Bytes) (hwf : s.data.WF) :
    (k ∈ s.Keys now ↔ ((s.Get now k).2).isSome = true) ∧
    (s.Keys now).Nodup ∧
    (∀ exp, s.expiry.get k = some exp → now > exp →
      k ∉ s.Keys now ∧ (s.Get now k).2 = none) := by
  have hmem : k ∈ s.Keys now ↔ ((s.Get now k).2).isSome = true := by
    rw [Keys_eq, Get_snd, List.mem_filter, GoMap.mem_keys_iff]
    cases s.expired now k <;> simp
  have hnd : (s.Keys now).Nodup := by
    rw [Keys_eq]
    exact List.Nodup.filter _ hwf
  refine ⟨hmem, hnd, ?_⟩
  · intro exp he hlt
    have hx : s.expired now k = true := by
      simp [Store.expired, he, hlt]
    have hg : (s.Get now k).2 = none := by
      rw [Get_snd, hx]
      rfl
    refine ⟨?_, hg⟩
    intro hm
    have := hmem.1 hm
    rw [hg] at this
    exact absurd this (by simp)

/-- Witness of C17: the store that holds `a` with an expiration at the instant
5 and `b` with none, read at the instant 9. -/
theorem Keys_iff_Get_witness :
    (lit "a" ∈ Store.Keys ⟨[(lit "a", lit "x"), (lit "b", lit "y")], [(lit "a", 5)]⟩ 9 ↔
      ((Store.Get ⟨[(lit "a", lit "x"), (lit "b", lit "y")], [(lit "a", 5)]⟩ 9 (lit "a")).2).isSome
        = true) ∧
    (Store.Keys ⟨[(lit "a", lit "x"), (lit "b", lit "y")], [(lit "a", 5)]⟩ 9).Nodup ∧
    (∀ exp, GoMap.get [(lit "a", (5 : Time))] (lit "a") = some exp → 9 > exp →
      lit "a" ∉ Store.Keys ⟨[(lit "a", lit "x"), (lit "b", lit "y")], [(lit "a", 5)]⟩ 9 ∧
      (Store.Get ⟨[(lit "a", lit "x"), (lit "b", lit "y")], [(lit "a", 5)]⟩ 9 (lit "a")).2
        = none) :=
  Keys_iff_Get ⟨[(lit "a", lit "x"), (lit "b", lit "y")], [(lit "a", 5)]⟩ 9 (lit "a")
    (by decide)

/-! ## A key with no expiration -/

theorem Get_fst_get_ne (s : Store) (now : Time) (key k : Bytes) (h : k ≠ key) :
    (s.Get now key).1.data.get k = s.data.get k ∧
    (s.Get now key).1.expiry.get k = s.expiry.get k := by
  unfold Store.Get
  split
  · split
    · exact ⟨GoMap.get_delete_ne _ _ _ h, GoMap.get_delete_ne _ _ _ h⟩
    · exact ⟨rfl, rfl⟩
  · exact ⟨rfl, rfl⟩

theorem Get_fst_of_no_expiry (s : Store) (now : Time) (k : Bytes) (h : s.expiry.get k = none) :
    (s.Get now k).1 = s := by
  simp only [Store.Get, h]

theorem held_step (s : Store) (now : Time) (op : Op) (k : Bytes) (v : Value)
    (ha : op.avoids k = true) (hd : s.data.get k = some v) (he : s.expiry.get k = none) :
    (s.step now op).data.get k = some v ∧ (s.step now op).expiry.get k = none := by
  cases op with
  | set key value =>
    have hk : k ≠ key := by
      intro e
      simp [Op.avoids, e] at ha
    simp only [Store.step, Store.Set, GoMap.get_set_ne _ _ _ _ hk, GoMap.get_delete_ne _ _ _ hk]
    exact ⟨hd, he⟩
  | setEx key value ttl =>
    have hk : k ≠ key := by
      intro e
      simp [Op.avoids, e] at ha
    simp only [Store.step, Store.SetEx, GoMap.get_set_ne _ _ _ _ hk]
    exact ⟨hd, he⟩
  | get key =>
    by_cases hk : k = key
    · subst hk
      simp only [Store.step, Get_fst_of_no_expiry s now k he]
      exact ⟨hd, he⟩
    · have := Get_fst_get_ne s now key k hk
      simp only [Store.step, this.1, this.2]
      exact ⟨hd, he⟩
  | del ks =>
    have hk : k ∉ ks := by
      simpa [Op.avoids] using ha
    simp only [Store.step, Store.Del, delLoop_data_get, delLoop_expiry_get, hk, if_false,
      false_and]
    exact ⟨hd, he⟩
  | expire key ttl =>
    have hk : k ≠ key := by
      intro e
      simp [Op.avoids, e] at ha
    have h1 : (s.Expire now key ttl).1.data = s.data := by
      unfold Store.Expire
      split <;> rfl
    have h2 : (s.Expire now key ttl).1.expiry.get k = s.expiry.get k := by
      unfold Store.Expire
      split
      · rfl
      · exact GoMap.get_set_ne _ _ _ _ hk
    simp only [Store.step, h1, h2]
    exact ⟨hd, he⟩
  | ttl key => exact ⟨hd, he⟩
  | keys => exact ⟨hd, he⟩
  | flushDB => simp [Op.avoids] at ha
  | reap =>
    have hr := reaped_of_get_none now s.expiry k he
    simp only [Store.step, reap_data_get, reap_expiry_get, hr]
    exact ⟨hd, he⟩

theorem held_run (ops : List (Time × Op)) (s : Store) (k : Bytes) (v : Value)
    (ha : ∀ p ∈ ops, p.2.avoids k = true) (hd : s.data.get k = some v)
    (he : s.expiry.get k = none) :
    (s.run ops).data.get k = some v ∧ (s.run ops).expiry.get k = none := by
  induction ops generalizing s with
  | nil => exact ⟨hd, he⟩
  | cons p rest ih =>
    obtain ⟨now, op⟩ := p
    have h1 := held_step s now op k v (ha (now, op) (List.mem_cons_self _ _)) hd he
    exact ih _ (fun q hq => ha q (List.mem_cons_of_mem _ hq)) h1.1 h1.2

/-- C18. A key with no recorded expiration never expires: after `Set(k, v)` on
any store, and after any sequence, run at any instants, of reaper ticks, reads
(`Get`, `TTL`, `Keys`) and writes to keys other than `k` (`Set`, `SetEx`,
`Del`, `Expire`), `Get(k)` at every instant returns `v` with found, and `k`
has no recorded expiration. -/
theorem no_expiration_never_expires (s : Store) (k : Bytes) (v : Value)
    (ops : List (Time × Op)) (ha : ∀ p ∈ ops, p.2.avoids k = true) (now : Time) :
    (((s.Set k v).run ops).Get now k).2 = some v ∧
    ((s.Set k v).run ops).expiry.get k = none := by
  have h := held_run ops (s.Set k v) k v ha
    (by simp only [Store.Set, GoMap.get_set_self])
    (by simp only [Store.Set, GoMap.get_delete_self])
  refine ⟨?_, h.2⟩
  simp only [Store.Get, h.2, h.1]

/-- Witness of C18: `k` is set on a store where it had an expiration; then
another key is set with an expiration, the reaper ticks long after, `k` is
read and the other key is deleted. -/
theorem no_expiration_never_expires_witness :
    (((Store.Set ⟨[(lit "k", lit "old")], [(lit "k", 5)]⟩ (lit "k") (lit "v")).run
        [(1, .setEx (lit "j") (lit "w") 3), (1000, .reap), (1001, .get (lit "k")),
          (1002, .del [lit "j"])]).Get 5000 (lit "k")).2 = some (lit "v") ∧
    ((Store.Set ⟨[(lit "k", lit "old")], [(lit "k", 5)]⟩ (lit "k") (lit "v")).run
        [(1, .setEx (lit "j") (lit "w") 3), (1000, .reap), (1001, .get (lit "k")),
          (1002, .del [lit "j"])]).expiry.get (lit "k") = none :=
  no_expiration_never_expires ⟨[(lit "k", lit "old")], [(lit "k", 5)]⟩ (lit "k") (lit "v")
    [(1, .setEx (lit "j") (lit "w") 3), (1000, .reap), (1001, .get (lit "k")),
      (1002, .del [lit "j"])] (by decide) 5000

/-! ## The reaper against the reads -/

theorem expired_of_reaped (s : Store) (t0 t : Time) (k : Bytes) (hwf : s.expiry.WF)
    (ht : t0 ≤ t) (hr : reaped t0 s.expiry k = true) : s.expired t k = true := by
  obtain ⟨exp, hg, hlt⟩ := (reaped_iff_get t0 s.expiry k hwf).1 hr
  simp only [Store.expired, hg, decide_eq_true_eq]
  simp only [Time] at *
  omega

theorem expired_after_reap (s : Store) (t0 t : Time) (k : Bytes)
    (hr : reaped t0 s.expiry k = false) :
    (s.cleanupExpiredKeys t0).expired t k = s.expired t k := by
  simp only [Store.expired, reap_expiry_get, hr]
  rfl

theorem map_fst_filter_key {V : Type} (q : Bytes → Bool) (l : List (Bytes × V)) :
    (l.filter (fun p => q p.1)).map Prod.fst = (l.map Prod.fst).filter q := by
  induction l with
  | nil => rfl
  | cons p r ih =>
    cases hq : q p.1 <;> simp [List.filter_cons, hq, ih]

theorem reap_data_keys (s : Store) (t0 : Time) :
    (s.cleanupExpiredKeys t0).data.map Prod.fst
      = (s.data.map Prod.fst).filter (fun k => !reaped t0 s.expiry k) := by
  simp only [Store.cleanupExpiredKeys, reapLoop_eq]
  exact map_fst_filter_key (fun k => !reaped t0 s.expiry k) s.data

/-- C20. A reaper tick is invisible to `Get` and `Keys`: on a store whose
expiration map holds each key once (as a Go map does), for instants
`t0 ≤ t`, a reaper scan at `t0` followed by `Get(k)` or `Keys()` at `t` gives
what `Get(k)` or `Keys()` gives at `t` without the scan; the scan removes from
both maps the keys whose recorded expiration is before `t0`, which `Get` and
`Keys` already hide at `t0`, and leaves every other key as it was. -/
theorem reap_invisible (s : Store) (t0 t : Time) (k : Bytes) (hwf : s.expiry.WF)
    (ht : t0 ≤ t) :
    ((s.cleanupExpiredKeys t0).Get t k).2 = (s.Get t k).2 ∧
    (s.cleanupExpiredKeys t0).Keys t = s.Keys t ∧
    ((∃ exp, s.expiry.get k = some exp ∧ t0 > exp) →
      (s.cleanupExpiredKeys t0).data.get k = none ∧
      (s.cleanupExpiredKeys t0).expiry.get k = none ∧
      (s.Get t0 k).2 = none ∧ k ∉ s.Keys t0) ∧
    ((¬ ∃ exp, s.expiry.get k = some exp ∧ t0 > exp) →
      (s.cleanupExpiredKeys t0).data.get k = s.data.get k ∧
      (s.cleanupExpiredKeys t0).expiry.get k = s.expiry.get k) := by
  refine ⟨?_, ?_, ?_, ?_⟩
  · rw [Get_snd, Get_snd]
    cases hr : reaped t0 s.expiry k with
    | true =>
      have hx := expired_of_reaped s t0 t k hwf ht hr
      rw [hx, reap_data_get, hr]
      simp
    | false =>
      rw [expired_after_reap s t0 t k hr, reap_data_get, hr]
      rfl
  · rw [Keys_eq, Keys_eq, reap_data_keys, List.filter_filter]
    apply List.filter_congr
    intro x _
    cases hr : reaped t0 s.expiry x with
    | true =>
      rw [expired_of_reaped s t0 t x hwf ht hr]
      simp
    | false =>
      rw [expired_after_reap s t0 t x hr]
      simp
  · intro hex
    have hr := (reaped_iff_get t0 s.expiry k hwf).2 hex
    have hx := expired_of_reaped s t0 t0 k hwf (le_refl _) hr
    refine ⟨by rw [reap_data_get, hr]; rfl, by rw [reap_expiry_get, hr]; rfl, ?_, ?_⟩
    · rw [Get_snd, hx]
      rfl
    · rw [Keys_eq, List.mem_filter, hx]
      simp
  · intro hex
    have hr : reaped t0 s.expiry k = false := by
      cases h : reaped t0 s.expiry k with
      | false => rfl
      | true => exact absurd ((reaped_iff_get t0 s.expiry k hwf).1 h) hex
    exact ⟨by rw [reap_data_get, hr]; rfl, by rw [reap_expiry_get, hr]; rfl⟩

/-- Witness of C20: the store that holds `a` with an expiration at the instant
5 and `b` with none, scanned at the instant 7 and read at the instant 9. -/
theorem reap_invisible_witness :
    ((Store.cleanupExpiredKeys ⟨[(lit "a", lit "x"), (lit "b", lit "y")], [(lit "a", 5)]⟩ 7).Get
        9 (lit "a")).2
      = (Store.Get ⟨[(lit "a", lit "x"), (lit "b", lit "y")], [(lit "a", 5)]⟩ 9 (lit "a")).2 ∧
    (Store.cleanupExpiredKeys ⟨[(lit "a", lit "x"), (lit "b", lit "y")], [(lit "a", 5)]⟩ 7).Keys 9
      = Store.Keys ⟨[(lit "a", lit "x"), (lit "b", lit "y")], [(lit "a", 5)]⟩ 9 ∧
    (Store.cleanupExpiredKeys ⟨[(lit "a", lit "x"), (lit "b", lit "y")], [(lit "a", 5)]⟩ 7)
      = ⟨[(lit "b", lit "y")], []⟩ :=
  ⟨(reap_invisible ⟨[(lit "a", lit "x"), (lit "b", lit "y")], [(lit "a", 5)]⟩ 7 9 (lit "a")
      (by decide) (by decide)).1,
    (reap_invisible ⟨[(lit "a", lit "x"), (lit "b", lit "y")], [(lit "a", 5)]⟩ 7 9 (lit "a")
      (by decide) (by decide)).2.1, by decide⟩

/-! ## Maps hold each key once -/

theorem WF_filter {V : Type} (m : GoMap V) (q : Bytes × V → Bool) (h : m.WF) :
    GoMap.WF (m.filter q) := by
  unfold GoMap.WF at *
  exact List.Nodup.sublist (List.Sublist.map _ (List.filter_sublist m)) h

theorem WF_delete {V : Type} (m : GoMap V) (k : Bytes) (h : m.WF) : (m.delete k).WF :=
  WF_filter m _ h

theorem WF_set {V : Type} (m : GoMap V) (k : Bytes) (v : V) (h : m.WF) : (m.set k v).WF := by
  have hd := WF_delete m k h
  unfold GoMap.WF at *
  simp only [GoMap.set, List.map_cons, List.nodup_cons]
  refine ⟨?_, hd⟩
  intro hm
  have := (GoMap.mem_keys_iff (m.delete k) k).1 hm
  rw [GoMap.get_delete_self] at this
  exact absurd this (by simp)

/-- The two maps of the store hold each key once. -/
theorem WF_step (s : Store) (now : Time) (op : Op) (h : s.data.WF ∧ s.expiry.WF) :
    (s.step now op).data.WF ∧ (s.step now op).expiry.WF := by
  have hdel : ∀ (keys : List Bytes) (st : Store) (c : Nat), st.data.WF ∧ st.expiry.WF →
      (Store.delLoop keys st c).1.data.WF ∧ (Store.delLoop keys st c).1.expiry.WF := by
    intro keys
    induction keys with
    | nil => exact fun _ _ hst => hst
    | cons key rest ih =>
      intro st c hst
      simp only [Store.delLoop]
      split
      · exact ih _ _ ⟨WF_delete _ _ hst.1, WF_delete _ _ hst.2⟩
      · exact ih _ _ hst
  cases op with
  | set key value => exact ⟨WF_set _ _ _ h.1, WF_delete _ _ h.2⟩
  | setEx key value ttl => exact ⟨WF_set _ _ _ h.1, WF_set _ _ _ h.2⟩
  | get key =>
    simp only [Store.step, Store.Get]
    split
    · split
      · exact ⟨WF_delete _ _ h.1, WF_delete _ _ h.2⟩
      · exact h
    · exact h
  | del ks => exact hdel ks s 0 h
  | expire key ttl =>
    simp only [Store.step, Store.Expire]
    split
    · exact h
    · exact ⟨h.1, WF_set _ _ _ h.2⟩
  | ttl key => exact h
  | keys => exact h
  | flushDB => exact ⟨List.nodup_nil, List.nodup_nil⟩
  | reap =>
    simp only [Store.step, Store.cleanupExpiredKeys, reapLoop_eq]
    exact ⟨WF_filter _ _ h.1, WF_filter _ _ h.2⟩

theorem WF_run (ops : List (Time × Op)) (s : Store) (h : s.data.WF ∧ s.expiry.WF) :
    (s.run ops).data.WF ∧ (s.run ops).expiry.WF := by
  induction ops generalizing s with
  | nil => exact h
  | cons p rest ih =>
    obtain ⟨now, op⟩ := p
    exact ih _ (WF_step s now op h)

theorem WF_reachable (ops : List (Time × Op)) :
    (Store.run Store.NewStore ops).data.WF ∧ (Store.run Store.NewStore ops).expiry.WF :=
  WF_run ops Store.NewStore ⟨List.nodup_nil, List.nodup_nil⟩

/-! ## Dispatcher: SETEX and EXPIRE -/

/-- C13. TTL validation: for a `SETEX` frame with 3 arguments and an `EXPIRE`
frame with 2 arguments (the command name in any letter case), when the
ttlSeconds argument is refused by `strconv.Atoi` or parses to a value `≤ 0`
the reply is `-ERR invalid expire time\r\n` and the store is left as it was;
when it parses to a positive integer the reply of `SETEX` is `+OK\r\n` and
the reply of `EXPIRE` is `:1\r\n` if the key had a value and `:0\r\n`
otherwise. -/
theorem ttl_validation (u : Bytes → Bytes) (now : Time) (s : Store) (name k n v : Bytes) :
    (ToUpper u name = lit "SETEX" →
      ((Atoi n = none ∨ ∃ x, Atoi n = some x ∧ x ≤ 0) →
        handleFrame u now s [name, k, n, v] = (s, lit "-ERR invalid expire time\r\n")) ∧
      (∀ x, Atoi n = some x → 0 < x →
        (handleFrame u now s [name, k, n, v]).2 = lit "+OK\r\n")) ∧
    (ToUpper u name = lit "EXPIRE" →
      ((Atoi n = none ∨ ∃ x, Atoi n = some x ∧ x ≤ 0) →
        handleFrame u now s [name, k, n] = (s, lit "-ERR invalid expire time\r\n")) ∧
      (∀ x, Atoi n = some x → 0 < x →
        (handleFrame u now s [name, k, n]).2
          = if (s.data.get k).isSome = true then lit ":1\r\n" else lit ":0\r\n")) := by
  have hw : writeError (lit "ERR invalid expire time") = lit "-ERR invalid expire time\r\n" := by
    decide
  constructor
  · intro hc
    constructor
    · rintro (h | ⟨x, h, hx⟩)
      · simp only [handleFrame, hc, dispatch_SETEX, h, hw]
      · simp only [handleFrame, hc, dispatch_SETEX, h, hx, if_true, hw]
    · intro x h hx
      have hx2 : ¬ x ≤ 0 := by omega
      simp only [handleFrame, hc, dispatch_SETEX, h, hx2, if_false]
      decide
  · intro hc
    constructor
    · rintro (h | ⟨x, h, hx⟩)
      · simp only [handleFrame, hc, dispatch_EXPIRE, h, hw]
      · simp only [handleFrame, hc, dispatch_EXPIRE, h, hx, if_true, hw]
    · intro x h hx
      have hx2 : ¬ x ≤ 0 := by omega
      have hw1 : writeInteger 1 = lit ":1\r\n" := by decide
      have hw0 : writeInteger 0 = lit ":0\r\n" := by decide
      simp only [handleFrame, hc, dispatch_EXPIRE, h, hx2, if_false, Store.Expire]
      cases s.data.get k with
      | none => exact hw0
      | some w => exact hw1

set_option maxRecDepth 100000 in
/-- Witness of C13: `setex k 0 v`, `SETEX k 10 v`, `EXPIRE k abc` and
`EXPIRE k 10` on the store that holds `k`. -/
theorem ttl_validation_witness :
    handleFrame id 3 ⟨[(lit "k", lit "v")], []⟩ [lit "setex", lit "k", lit "0", lit "v"]
      = (⟨[(lit "k", lit "v")], []⟩, lit "-ERR invalid expire time\r\n") ∧
    (handleFrame id 3 ⟨[(lit "k", lit "v")], []⟩ [lit "SETEX", lit "k", lit "10", lit "v"]).2
      = lit "+OK\r\n" ∧
    handleFrame id 3 ⟨[(lit "k", lit "v")], []⟩ [lit "EXPIRE", lit "k", lit "abc"]
      = (⟨[(lit "k", lit "v")], []⟩, lit "-ERR invalid expire time\r\n") ∧
    (handleFrame id 3 ⟨[(lit "k", lit "v")], []⟩ [lit "EXPIRE", lit "k", lit "10"]).2
      = (if (GoMap.get [(lit "k", lit "v")] (lit "k")).isSome = true then lit ":1\r\n"
          else lit ":0\r\n") :=
  ⟨((ttl_validation id 3 ⟨[(lit "k", lit "v")], []⟩ (lit "setex") (lit "k") (lit "0")
      (lit "v")).1 (by decide)).1 (Or.inr ⟨0, by decide, by decide⟩),
    ((ttl_validation id 3 ⟨[(lit "k", lit "v")], []⟩ (lit "SETEX") (lit "k") (lit "10")
      (lit "v")).1 (by decide)).2 10 (by decide) (by decide),
    ((ttl_validation id 3 ⟨[(lit "k", lit "v")], []⟩ (lit "EXPIRE") (lit "k") (lit "abc")
      (lit "v")).2 (by decide)).1 (Or.inl (by decide)),
    ((ttl_validation id 3 ⟨[(lit "k", lit "v")], []⟩ (lit "EXPIRE") (lit "k") (lit "10")
      (lit "v")).2 (by decide)).2 10 (by decide) (by decide)⟩

theorem wrapInt64_seconds (x : Int) (h0 : 0 < x) (h1 : x ≤ 9223372036) :
    wrapInt64 (x * Second) = x * Second ∧ x * Second ≠ 0 := by
  unfold wrapInt64 Second
  simp only [Duration]
  norm_num
  constructor
  · omega
  · omega

theorem handleFrame_SETEX (u : Bytes → Bytes) (now : Time) (s : Store) (k n v : Bytes) (x : Int)
    (hx : Atoi n = some x) (h0 : 0 < x) (h1 : x ≤ 9223372036) :
    (handleFrame u now s [lit "SETEX", k, n, v]).1
      = ⟨s.data.set k v, s.expiry.set k (now + x * Second)⟩ := by
  have hc : ToUpper u (lit "SETEX") = lit "SETEX" := rfl
  have hx2 : ¬ x ≤ 0 := by omega
  have hwrap := wrapInt64_seconds x h0 h1
  simp only [handleFrame, hc, dispatch_SETEX, hx, hx2, if_false, Store.SetEx, hwrap.1, hwrap.2]

set_option maxRecDepth 100000 in
/-- C14, counterexample: `SETEX k 9223372037 v` at the instant 0 records an
expiration in the past (the product by `time.Second` wraps in `int64`), so
`GET k` at the instant 0 replies null; `SETEX k 36028797018963968 v` (the
product wraps to the duration 0, which `SetEx` replaces by 3600 ns) records
the expiration 3600, so `GET k` replies `v` at the instant 1 and null at the
instant 3601; and after `SETEX k 10 ""` the reply to `GET k` at the instant 0
is the null reply. -/
theorem setex_expiration_not_exact :
    (handleFrame id 0 Store.NewStore [lit "SETEX", lit "k", lit "9223372037", lit "v"])
      = (⟨[(lit "k", lit "v")], [(lit "k", -9223372036709551616)]⟩, lit "+OK\r\n") ∧
    (handleFrame id 0 ⟨[(lit "k", lit "v")], [(lit "k", -9223372036709551616)]⟩
        [lit "GET", lit "k"]).2 = lit "$-1\r\n" ∧
    (handleFrame id 0 Store.NewStore [lit "SETEX", lit "k", lit "36028797018963968", lit "v"])
      = (⟨[(lit "k", lit "v")], [(lit "k", 3600)]⟩, lit "+OK\r\n") ∧
    (handleFrame id 1 ⟨[(lit "k", lit "v")], [(lit "k", 3600)]⟩ [lit "GET", lit "k"]).2
      = lit "$1\r\nv\r\n" ∧
    (handleFrame id 3601 ⟨[(lit "k", lit "v")], [(lit "k", 3600)]⟩ [lit "GET", lit "k"]).2
      = lit "$-1\r\n" ∧
    (handleFrame id 0 Store.NewStore [lit "SETEX", lit "k", lit "10", []])
      = (⟨[(lit "k", [])], [(lit "k", 10000000000)]⟩, lit "+OK\r\n") ∧
    (handleFrame id 0 ⟨[(lit "k", [])], [(lit "k", 10000000000)]⟩ [lit "GET", lit "k"]).2
      = lit "$-1\r\n" := by
  decide

/-- C14, amended: for every `SETEX k n v` frame whose ttlSeconds `n` parses to
an integer `x` with `0 < x ≤ 9223372036` (so that `x` seconds fit in the 64-bit
nanosecond `Duration`), processed at the instant `now`, the store records for
`k` the value `v` and the expiration `now + x` seconds exactly; `Get(k)` at
every instant `t ≤ now + x` seconds returns `v`, the reply to `GET k` being
the bulk string of `v` when `v` is not empty, and at every instant
`t > now + x` seconds the reply to `GET k` is the null reply. -/
theorem setex_records_expiration (u : Bytes → Bytes) (now : Time) (s : Store) (k n v : Bytes)
    (x : Int) (hx : Atoi n = some x) (h0 : 0 < x) (h1 : x ≤ 9223372036) :
    (handleFrame u now s [lit "SETEX", k, n, v]).1.data.get k = some v ∧
    (handleFrame u now s [lit "SETEX", k, n, v]).1.expiry.get k = some (now + x * Second) ∧
    (∀ t : Time, t ≤ now + x * Second →
      ((handleFrame u now s [lit "SETEX", k, n, v]).1.Get t k).2 = some v ∧
      (v ≠ [] →
        (handleFrame u t (handleFrame u now s [lit "SETEX", k, n, v]).1 [lit "GET", k]).2
          = lit "$" ++ FormatInt v.length ++ CRLF ++ v ++ CRLF)) ∧
    (∀ t : Time, t > now + x * Second →
      ((handleFrame u now s [lit "SETEX", k, n, v]).1.Get t k).2 = none ∧
      (handleFrame u t (handleFrame u now s [lit "SETEX", k, n, v]).1 [lit "GET", k]).2
        = lit "$-1\r\n") := by
  rw [handleFrame_SETEX u now s k n v x hx h0 h1]
  have hd : (s.data.set k v).get k = some v := GoMap.get_set_self _ _ _
  have he : (s.expiry.set k (now + x * Second)).get k = some (now + x * Second) :=
    GoMap.get_set_self _ _ _
  refine ⟨hd, he, ?_, ?_⟩
  · intro t ht
    have hnot : ¬ t > now + x * Second := not_lt.2 ht
    have hg : (Store.Get ⟨s.data.set k v, s.expiry.set k (now + x * Second)⟩ t k)
        = (⟨s.data.set k v, s.expiry.set k (now + x * Second)⟩, some v) := by
      simp only [Store.Get, he, hnot, if_false, hd]
    refine ⟨by rw [hg], ?_⟩
    intro hv
    simp only [handleFrame, ToUpper_GET, dispatch_GET, hg, writeBulkString, hv, if_false]
  · intro t ht
    have hg : (Store.Get ⟨s.data.set k v, s.expiry.set k (now + x * Second)⟩ t k).2 = none := by
      simp only [Store.Get, he, ht, if_true]
    refine ⟨hg, ?_⟩
    simp only [handleFrame, ToUpper_GET, dispatch_GET]
    cases hr : Store.Get ⟨s.data.set k v, s.expiry.set k (now + x * Second)⟩ t k with
    | mk s1 r =>
      rw [hr] at hg
      simp only at hg
      subst hg
      rfl

/-- Witness of C14 (amended): `SETEX k 10 v` at the instant 7. -/
theorem setex_records_expiration_witness :
    (handleFrame id 7 Store.NewStore [lit "SETEX", lit "k", lit "10", lit "v"]).1.data.get
        (lit "k") = some (lit "v") ∧
    (handleFrame id 7 Store.NewStore [lit "SETEX", lit "k", lit "10", lit "v"]).1.expiry.get
        (lit "k") = some (7 + 10 * Second) ∧
    (∀ t : Time, t ≤ 7 + 10 * Second →
      ((handleFrame id 7 Store.NewStore [lit "SETEX", lit "k", lit "10", lit "v"]).1.Get t
          (lit "k")).2 = some (lit "v") ∧
      (lit "v" ≠ [] →
        (handleFrame id t
            (handleFrame id 7 Store.NewStore [lit "SETEX", lit "k", lit "10", lit "v"]).1
            [lit "GET", lit "k"]).2
          = lit "$" ++ FormatInt (lit "v").length ++ CRLF ++ lit "v" ++ CRLF)) ∧
    (∀ t : Time, t > 7 + 10 * Second →
      ((handleFrame id 7 Store.NewStore [lit "SETEX", lit "k", lit "10", lit "v"]).1.Get t
          (lit "k")).2 = none ∧
      (handleFrame id t
          (handleFrame id 7 Store.NewStore [lit "SETEX", lit "k", lit "10", lit "v"]).1
          [lit "GET", lit "k"]).2 = lit "$-1\r\n") :=
  setex_records_expiration id 7 Store.NewStore (lit "k") (lit "10") (lit "v") 10
    (by decide) (by decide) (by decide)

/-! ## Dispatcher: TTL after SETEX -/

/-- C15, counterexample: after `SETEX k 1 v` at the instant 0, the reply to
`TTL k` one nanosecond later, before the expiry, is `:0\r\n`, which is not a
positive integer; and the reply after the expiry, at the instant 2s, is
`:0\r\n` too, not `:-2\r\n`. -/
theorem ttl_reply_not_positive :
    (handleFrame id 0 Store.NewStore [lit "SETEX", lit "k", lit "1", lit "v"]).1
      = ⟨[(lit "k", lit "v")], [(lit "k", 1000000000)]⟩ ∧
    (handleFrame id 1 ⟨[(lit "k", lit "v")], [(lit "k", 1000000000)]⟩ [lit "TTL", lit "k"]).2
      = lit ":0\r\n" ∧
    Store.TTL ⟨[(lit "k", lit "v")], [(lit "k", 1000000000)]⟩ 2000000000 (lit "k") = -2 ∧
    (handleFrame id 2000000000 ⟨[(lit "k", lit "v")], [(lit "k", 1000000000)]⟩
        [lit "TTL", lit "k"]).2 = lit ":0\r\n" := by
  decide

/-- C15, amended: after `SETEX k n v` processed at the instant `now`, `n`
parsing to an integer `x` with `0 < x < 2 ^ 23`, the reply the dispatcher
writes to `TTL k` at an instant `t` with `now ≤ t ≤ now + x` seconds is the
number of whole seconds that remain, `(now + x seconds - t) / 1 second`
rounded down: an integer between 0 and `x`, positive exactly when at least one
whole second remains. -/
theorem ttl_reply_after_setex (u : Bytes → Bytes) (now t : Time) (s : Store) (k n v : Bytes)
    (x : Int) (hx : Atoi n = some x) (h0 : 0 < x) (h1 : x < 2 ^ 23)
    (ht1 : now ≤ t) (ht2 : t ≤ now + x * Second) :
    (handleFrame u t (handleFrame u now s [lit "SETEX", k, n, v]).1 [lit "TTL", k]).2
      = lit ":" ++ FormatInt ((now + x * Second - t) / Second) ++ CRLF ∧
    0 ≤ (now + x * Second - t) / Second ∧
    (now + x * Second - t) / Second ≤ x ∧
    (0 < (now + x * Second - t) / Second ↔ t + Second ≤ now + x * Second) := by
  have hx1 : x ≤ 9223372036 := by
    have e : (2 : Int) ^ 23 = 8388608 := by norm_num
    omega
  have hS : Second = (1000000000 : Int) := rfl
  have hpos : (0 : Int) < Second := by decide
  have hrem0 : (0 : Int) ≤ now + x * Second - t := by
    simp only [Time] at *
    omega
  have hrem1 : now + x * Second - t ≤ x * Second := by
    simp only [Time] at *
    omega
  refine ⟨?_, Int.ediv_nonneg hrem0 (le_of_lt hpos), Int.ediv_le_of_le_mul hpos hrem1, ?_⟩
  · rw [handleFrame_SETEX u now s k n v x hx h0 hx1]
    have he : (s.expiry.set k (now + x * Second)).get k = some (now + x * Second) :=
      GoMap.get_set_self _ _ _
    have hnot : ¬ t > now + x * Second := not_lt.2 ht2
    have hsub : timeSub (now + x * Second) t = now + x * Second - t := by
      apply timeSub_small _ _ hrem0
      have e : (2 : Int) ^ 63 = 9223372036854775808 := by norm_num
      have e2 : (2 : Int) ^ 23 = 8388608 := by norm_num
      rw [hS]
      simp only [Time] at *
      omega
    have httl : Store.TTL ⟨s.data.set k v, s.expiry.set k (now + x * Second)⟩ t k
        = now + x * Second - t := by
      simp only [Store.TTL, he, hnot, if_false, hsub]
    simp only [handleFrame, ToUpper_TTL, dispatch_TTL, httl, secondsInt64,
      Int.tdiv_eq_ediv hrem0 (le_of_lt hpos)]
    rfl
  · rw [Int.lt_iff_add_one_le, Int.le_ediv_iff_mul_le hpos]
    simp only [Time] at *
    rw [hS]
    constructor <;> intro h <;> omega

/-- Witness of C15 (amended): `SETEX k 1 v` at the instant 0 and `TTL k` half a
second later. -/
theorem ttl_reply_after_setex_witness :
    (handleFrame id 500000000
        (handleFrame id 0 Store.NewStore [lit "SETEX", lit "k", lit "1", lit "v"]).1
        [lit "TTL", lit "k"]).2
      = lit ":" ++ FormatInt ((0 + 1 * Second - 500000000) / Second) ++ CRLF ∧
    0 ≤ ((0 : Time) + 1 * Second - 500000000) / Second ∧
    ((0 : Time) + 1 * Second - 500000000) / Second ≤ 1 ∧
    (0 < ((0 : Time) + 1 * Second - 500000000) / Second ↔
      (500000000 : Time) + Second ≤ 0 + 1 * Second) :=
  ttl_reply_after_setex id 0 500000000 Store.NewStore (lit "k") (lit "1") (lit "v") 1
    (by decide) (by decide) (by decide) (by decide) (by decide)

/-! ## `Get` against a concurrent writer -/

theorem Get_eq_sections (s : Store) (now : Time) (key : Bytes) :
    s.Get now key =
      match s.getRead now key with
      | .evict => (s.getEvict key, none)
      | .result r => (s, r) := by
  unfold Store.Get Store.getRead Store.getEvict
  cases s.expiry.get key with
  | none => rfl
  | some exp =>
    by_cases h : now > exp
    · simp only [h, if_true]
    · simp only [h, if_false]

/-- C19, the code at the failing input: on the store reached from `NewStore`
by `SetEx("k", "v", 1s)` at the instant 0, `Get("k")` runs at the instant 2s
together with `Set("k", "w")`. When the writer's section falls between the
section of `Get` under the read lock and its section under the write lock,
`Get` reports not-found and the store ends empty: the value `w` is deleted.
In the two serial orders the store ends holding `w`. -/
theorem get_eviction_race :
    Store.run Store.NewStore [(0, .setEx (lit "k") (lit "v") Second)]
      = ⟨[(lit "k", lit "v")], [(lit "k", 1000000000)]⟩ ∧
    Store.raceGet ⟨[(lit "k", lit "v")], [(lit "k", 1000000000)]⟩ 2000000000 (lit "k")
        (fun st => st.Set (lit "k") (lit "w")) .writerBetween
      = (⟨[], []⟩, none) ∧
    Store.raceGet ⟨[(lit "k", lit "v")], [(lit "k", 1000000000)]⟩ 2000000000 (lit "k")
        (fun st => st.Set (lit "k") (lit "w")) .writerFirst
      = (⟨[(lit "k", lit "w")], []⟩, some (lit "w")) ∧
    Store.raceGet ⟨[(lit "k", lit "v")], [(lit "k", 1000000000)]⟩ 2000000000 (lit "k")
        (fun st => st.Set (lit "k") (lit "w")) .writerLast
      = (⟨[(lit "k", lit "w")], []⟩, none) := by
  decide

/-! ## The readers with their allocations -/

theorem readBulkStringAlloc_agrees (m : Nat) (s : Bytes) :
    readBulkStringAlloc m s = none ∨ readBulkStringAlloc m s = some (readBulkString s) := by
  unfold readBulkStringAlloc readBulkString
  cases hb : ReadByte s with
  | mk r s1 =>
    cases r with
    | error e => exact Or.inr rfl
    | ok c =>
      simp only
      by_cases hc : c ≠ 36
      · simp only [if_pos hc]
        exact Or.inr trivial
      · simp only [hc, if_false]
        cases hl : ReadString 10 s1 with
        | mk r2 s2 =>
          cases r2 with
          | error e => exact Or.inr rfl
          | ok line =>
            simp only
            cases ha : Atoi (TrimSuffix line CRLF) with
            | none => exact Or.inr rfl
            | some length =>
              simp only
              by_cases hn : length < 0
              · simp only [hn, if_true]
                exact Or.inr trivial
              · simp only [hn, if_false]
                by_cases hm : canAlloc m length.toNat = false
                · simp only [hm, if_true]
                  exact Or.inl trivial
                · simp only [hm, if_false]
                  right
                  cases hf : ReadFull length.toNat s2 with
                  | mk r3 s3 =>
                    cases r3 with
                    | error e => rfl
                    | ok buf =>
                      simp only
                      cases hd : Discard 2 s3 with
                      | mk r4 s4 =>
                        cases r4 with
                        | error e => rfl
                        | ok x => rfl

theorem readElemsAlloc_agrees (m n : Nat) (acc : List Bytes) (s : Bytes) :
    readElemsAlloc m n acc s = none ∨ readElemsAlloc m n acc s = some (readElems n acc s) := by
  induction n generalizing acc s with
  | zero => exact Or.inr rfl
  | succ k ih =>
    simp only [readElemsAlloc, readElems]
    rcases readBulkStringAlloc_agrees m s with h | h
    · left
      rw [h]
    · rw [h]
      cases hr : readBulkString s with
      | mk r s1 =>
        cases r with
        | error e => exact Or.inr rfl
        | ok arg => exact ih _ _

theorem readArrayAlloc_agrees (m : Nat) (s : Bytes) :
    readArrayAlloc m s = none ∨ readArrayAlloc m s = some (readArray s) := by
  unfold readArrayAlloc readArray
  cases hb : ReadByte s with
  | mk r s1 =>
    cases r with
    | error e => exact Or.inr rfl
    | ok c =>
      simp only
      by_cases hc : c ≠ 42
      · simp only [if_pos hc]
        exact Or.inr trivial
      · simp only [hc, if_false]
        cases hl : ReadString 10 s1 with
        | mk r2 s2 =>
          cases r2 with
          | error e => exact Or.inr rfl
          | ok line =>
            simp only
            cases ha : Atoi (TrimSuffix line CRLF) with
            | none => exact Or.inr rfl
            | some numElems =>
              simp only
              by_cases hn : numElems < 0
              · simp only [hn, if_true]
                exact Or.inr trivial
              · simp only [hn, if_false]
                by_cases hm : canAlloc m (16 * numElems.toNat) = false
                · simp only [hm, if_true]
                  exact Or.inl trivial
                · simp only [hm, if_false]
                  exact readElemsAlloc_agrees m _ _ _

theorem readArrayAlloc_eq_some (m : Nat) (s : Bytes) (r : Read (List Bytes))
    (h : readArrayAlloc m s = some r) : readArray s = r := by
  rcases readArrayAlloc_agrees m s with h1 | h1
  · rw [h1] at h
    exact absurd h (by simp)
  · rw [h1] at h
    exact Option.some.inj h

theorem some_ne_none_or {α : Type} (x : Option α) (y : α) (h : x = none ∨ x = some y)
    (hne : x ≠ none) : x = some y := by
  rcases h with h | h
  · exact absurd h hne
  · exact h

theorem canAlloc_lt (m n : Nat) (h : canAlloc m n = true) : n < 2 ^ 63 := by
  simp only [canAlloc, maxAlloc, Bool.and_eq_true, decide_eq_true_eq] at h
  have e : (2 : Nat) ^ 48 < 2 ^ 63 := by norm_num
  omega

theorem canAlloc_elems_lt (m n : Nat) (h : canAlloc m (16 * n) = true) : n < 2 ^ 63 := by
  have := canAlloc_lt m (16 * n) h
  omega

theorem readBulkStringAlloc_length (m n : Nat) (body : Bytes) (hn : n < 2 ^ 63) :
    readBulkStringAlloc m ((36 : Byte) :: (formatNat n ++ CRLF ++ body))
      = if canAlloc m n = false then none
        else
          match ReadFull n body with
          | (.error e, s3) => some (.error e, s3)
          | (.ok buf, s3) =>
            match Discard 2 s3 with
            | (.error e, s4) => some (.error e, s4)
            | (.ok _, s4) => some (.ok buf, s4) := by
  have e2 := ReadString_formatNat n body
  have e3 := TrimSuffix_append_CRLF (formatNat n)
  have e4 := Atoi_formatNat n hn
  simp only [readBulkStringAlloc, ReadByte, ne_eq, not_true_eq_false, if_false, e2, e3, e4]
  rw [if_neg (by omega)]
  simp only [Int.toNat_ofNat]
  try rfl

theorem readBulkStringAlloc_bulkHeader (m : Nat) (a body : Bytes)
    (hm : canAlloc m a.length = true) :
    readBulkStringAlloc m (bulkHeader a ++ body) = some (readBulkString (bulkHeader a ++ body)) := by
  apply some_ne_none_or _ _ (readBulkStringAlloc_agrees m _)
  have e1 : bulkHeader a ++ body = (36 : Byte) :: (formatNat a.length ++ CRLF ++ body) := by
    simp [bulkHeader_eq]
  rw [e1, readBulkStringAlloc_length m a.length body (canAlloc_lt m _ hm),
    if_neg (by simp [hm])]
  cases hf : ReadFull a.length body with
  | mk r3 s3 =>
    cases r3 with
    | error e => simp
    | ok buf =>
      simp only
      cases hd : Discard 2 s3 with
      | mk r4 s4 =>
        cases r4 with
        | error e => simp
        | ok x => simp

theorem readBulkStringAlloc_panics (m n : Nat) (body : Bytes) (hn : n < 2 ^ 63)
    (h : canAlloc m n = false) :
    readBulkStringAlloc m (lit "$" ++ FormatInt n ++ CRLF ++ body) = none := by
  have e1 : lit "$" ++ FormatInt n ++ CRLF ++ body
      = (36 : Byte) :: (formatNat n ++ CRLF ++ body) := by
    simp [lit, FormatInt_natCast, Fin.ofNat]
  rw [e1, readBulkStringAlloc_length m n body hn, if_pos h]

theorem readBulkStringAlloc_no_LF (m : Nat) (p2 : Bytes) (h : ∀ c ∈ p2, c ≠ 10) :
    readBulkStringAlloc m ((36 : Byte) :: p2) = some (.error .eof, []) := by
  simp only [readBulkStringAlloc, ReadByte, ne_eq, not_true_eq_false, if_false,
    ReadString_no_delim 10 p2 h]

theorem readArrayAlloc_no_LF (m : Nat) (p2 : Bytes) (h : ∀ c ∈ p2, c ≠ 10) :
    readArrayAlloc m ((42 : Byte) :: p2) = some (.error .eof, []) := by
  simp only [readArrayAlloc, ReadByte, ne_eq, not_true_eq_false, if_false,
    ReadString_no_delim 10 p2 h]

theorem readArrayAlloc_length (m n : Nat) (body : Bytes) (hn : n < 2 ^ 63) :
    readArrayAlloc m (commandHeader n ++ body)
      = if canAlloc m (16 * n) = false then none else readElemsAlloc m n [] body := by
  have e1 : commandHeader n ++ body = (42 : Byte) :: (formatNat n ++ CRLF ++ body) := by
    simp [commandHeader_eq]
  have e2 := ReadString_formatNat n body
  have e3 := TrimSuffix_append_CRLF (formatNat n)
  have e4 := Atoi_formatNat n hn
  rw [e1]
  simp only [readArrayAlloc, ReadByte, ne_eq, not_true_eq_false, if_false, e2, e3, e4]
  rw [if_neg (by omega)]
  simp only [Int.toNat_ofNat]

theorem readArrayAlloc_panics (m n : Nat) (body : Bytes) (hn : n < 2 ^ 63)
    (h : canAlloc m (16 * n) = false) :
    readArrayAlloc m (commandHeader n ++ body) = none := by
  rw [readArrayAlloc_length m n body hn, if_pos h]

theorem readArrayAlloc_ok (m n : Nat) (body : Bytes) (h : canAlloc m (16 * n) = true) :
    readArrayAlloc m (commandHeader n ++ body) = readElemsAlloc m n [] body := by
  rw [readArrayAlloc_length m n body (canAlloc_elems_lt m n h), if_neg (by simp [h])]

theorem readBulkStringAlloc_encodeBulk (m : Nat) (a rest : Bytes)
    (hm : canAlloc m a.length = true) :
    readBulkStringAlloc m (encodeBulk a ++ rest) = some (.ok a, rest) := by
  have e : encodeBulk a ++ rest = bulkHeader a ++ (a ++ CRLF ++ rest) := by
    simp [encodeBulk]
  rw [e, readBulkStringAlloc_bulkHeader m a _ hm, ← e,
    readBulkString_encodeBulk a rest (canAlloc_lt m _ hm)]

theorem readElemsAlloc_encodeBulks_add (m : Nat) (args : List Bytes) (k : Nat)
    (acc : List Bytes) (rest : Bytes) (hm : ∀ a ∈ args, canAlloc m a.length = true) :
    readElemsAlloc m (args.length + k) acc (encodeBulks args ++ rest)
      = readElemsAlloc m k (acc ++ args) rest := by
  induction args generalizing acc with
  | nil => simp [encodeBulks]
  | cons a r ih =>
    have hma := hm a (List.mem_cons_self _ _)
    have hr := ih (acc ++ [a]) (fun x hx => hm x (List.mem_cons_of_mem _ hx))
    have e : (a :: r).length + k = (r.length + k) + 1 := by
      simp only [List.length_cons]
      omega
    rw [e]
    simp only [readElemsAlloc, encodeBulks, List.append_assoc,
      readBulkStringAlloc_encodeBulk m a _ hma]
    simpa using hr

theorem readArrayAlloc_encodeCommand (m : Nat) (args : List Bytes) (rest : Bytes)
    (hmn : canAlloc m (16 * args.length) = true)
    (hm : ∀ a ∈ args, canAlloc m a.length = true) :
    readArrayAlloc m (encodeCommand args ++ rest) = some (.ok args, rest) := by
  have e : encodeCommand args ++ rest = commandHeader args.length ++ (encodeBulks args ++ rest) := by
    simp [encodeCommand]
  rw [e, readArrayAlloc_ok m _ _ hmn]
  have := readElemsAlloc_encodeBulks_add m args 0 [] rest hm
  simp only [Nat.add_zero, List.nil_append, readElemsAlloc] at this
  exact this

theorem readBulkStringAlloc_of_part (m : Nat) (a p q : Bytes)
    (hm : canAlloc m a.length = true) (hpq : p ++ q = encodeBulk a) :
    readBulkStringAlloc m p = some (readBulkString p) := by
  rcases List.append_eq_append_iff.1 (show p ++ q = bulkHeader a ++ (a ++ CRLF) from hpq) with
    ⟨w, hw, _⟩ | ⟨body, hp, _⟩
  · by_cases hw0 : w = []
    · subst hw0
      have hp : p = bulkHeader a ++ [] := by simpa using hw.symm
      rw [hp]
      exact readBulkStringAlloc_bulkHeader m a [] hm
    · rw [bulkHeader_eq] at hw
      rcases header_proper_start 36 (formatNat a.length) p w (formatNat_no_LF _) hw.symm hw0 with
        h1 | ⟨p2, h1, h2⟩
      · rw [h1]
        rfl
      · rw [h1, readBulkStringAlloc_no_LF m p2 h2, readBulkString_no_LF p2 h2]
  · rw [hp]
    exact readBulkStringAlloc_bulkHeader m a body hm

theorem readElemsAlloc_of_part (m : Nat) (args : List Bytes) (n : Nat) (acc : List Bytes)
    (p q : Bytes) (hm : ∀ a ∈ args, canAlloc m a.length = true)
    (hpq : p ++ q = encodeBulks args) :
    readElemsAlloc m n acc p = some (readElems n acc p) := by
  induction n generalizing args acc p q with
  | zero => rfl
  | succ k ih =>
    cases args with
    | nil =>
      simp only [encodeBulks, List.append_eq_nil] at hpq
      rw [hpq.1]
      rfl
    | cons a r =>
      have hma := hm a (List.mem_cons_self _ _)
      have ha := canAlloc_lt m _ hma
      have hmr : ∀ x ∈ r, canAlloc m x.length = true :=
        fun x hx => hm x (List.mem_cons_of_mem _ hx)
      rcases List.append_eq_append_iff.1
          (show p ++ q = encodeBulk a ++ encodeBulks r from hpq) with
        ⟨w, hw, hq2⟩ | ⟨body, hp, hbody⟩
      · have hA := readBulkStringAlloc_of_part m a p w hma hw.symm
        by_cases hw0 : w = []
        · subst hw0
          have hp : p = encodeBulk a ++ [] := by simpa using hw.symm
          have hB := readBulkString_encodeBulk a [] ha
          rw [← hp] at hB
          simp only [readElemsAlloc, readElems, hA, hB]
          exact ih r _ [] q hmr (by rw [hq2]; rfl)
        · rcases readBulkString_truncated a p w ha hw.symm hw0 with h1 | ⟨j, h0, hj, hpj⟩
          · simp only [readElemsAlloc, readElems, hA, h1]
          · have h1 := readBulkString_cut_in_payload a j ha h0 hj
            rw [← hpj] at h1
            simp only [readElemsAlloc, readElems, hA, h1]
      · have hA := readBulkStringAlloc_encodeBulk m a body hma
        have hB := readBulkString_encodeBulk a body ha
        rw [← hp] at hA hB
        simp only [readElemsAlloc, readElems, hA, hB]
        exact ih r _ body q hmr hbody.symm

theorem readArrayAlloc_of_part (m : Nat) (args : List Bytes) (p q : Bytes)
    (hmn : canAlloc m (16 * args.length) = true)
    (hm : ∀ a ∈ args, canAlloc m a.length = true)
    (hpq : p ++ q = encodeCommand args) :
    readArrayAlloc m p = some (readArray p) := by
  have hn := canAlloc_elems_lt m _ hmn
  rcases List.append_eq_append_iff.1
      (show p ++ q = commandHeader args.length ++ encodeBulks args from hpq) with
    ⟨w, hw, _⟩ | ⟨body, hp, hbody⟩
  · by_cases hw0 : w = []
    · subst hw0
      have hp : p = commandHeader args.length ++ [] := by simpa using hw.symm
      rw [hp, readArrayAlloc_ok m _ _ hmn, readArray_commandHeader _ _ hn]
      exact readElemsAlloc_of_part m args _ [] [] (encodeBulks args) hm rfl
    · rw [commandHeader_eq] at hw
      rcases header_proper_start 42 (formatNat args.length) p w (formatNat_no_LF _) hw.symm hw0
        with h1 | ⟨p2, h1, h2⟩
      · rw [h1]
        rfl
      · rw [h1, readArrayAlloc_no_LF m p2 h2, readArray_no_LF p2 h2]
  · rw [hp, readArrayAlloc_ok m _ _ hmn, readArray_commandHeader _ _ hn]
    exact readElemsAlloc_of_part m args _ [] body q hm hbody.symm

/-! ## Truncated frames and the end of the stream -/

set_option maxRecDepth 100000 in
/-- C7, counterexample: with room for allocations of one mebibyte, a stream
that ends right after the array header `*1\r\n`, inside the array header
(`*2`), or inside the `\r\n` that follows a payload makes `readArray` return
`io.EOF` although bytes of a frame were read, and the dispatcher then returns
without a reply; and on a stream that ends after an array header or a
bulk-string header declaring 9223372036854775807 elements or bytes
`readArray` returns no error at all: the allocation fails. -/
theorem truncated_frame_returns_EOF :
    readArrayAlloc 1048576 (lit "*1\r\n") = some (.error .eof, []) ∧
    readArrayAlloc 1048576 (lit "*2") = some (.error .eof, []) ∧
    readArrayAlloc 1048576 (lit "*1\r\n$3\r\nabc\r") = some (.error .eof, []) ∧
    connStep id 1048576 0 Store.NewStore (lit "*1\r\n") = .closed ∧
    readArrayAlloc 1048576 (lit "*9223372036854775807\r\n") = none ∧
    readArrayAlloc 1048576 (lit "*1\r\n$9223372036854775807\r\nab") = none :=
  ⟨by decide, by decide, by decide, by decide, by decide, by decide⟩

/-- C7, amended: whatever the room for allocations, `readArray` returns
`io.EOF`, on which the dispatcher returns without a reply, when the stream
holds no bytes where the frame starts. For a stream that ends inside a frame
(a proper prefix `p` of the bytes of a request `args`) whose array and
payloads can be allocated, the error is `io.EOF` or `io.ErrUnexpectedEOF`, and
it is `io.ErrUnexpectedEOF` exactly when the stream ends inside the payload of
a bulk string after at least one and before all of its bytes. -/
theorem readArray_EOF_cases (allocMax : Nat) :
    readArrayAlloc allocMax [] = some (.error .eof, []) ∧
    (∀ (u : Bytes → Bytes) (now : Time) (store : Store) (stream rest : Bytes),
      readArrayAlloc allocMax stream = some (.error .eof, rest) →
        connStep u allocMax now store stream = .closed) ∧
    (∀ (args : List Bytes) (p q : Bytes),
      canAlloc allocMax (16 * args.length) = true →
      (∀ a ∈ args, canAlloc allocMax a.length = true) →
      p ++ q = encodeCommand args → q ≠ [] →
        (readArrayAlloc allocMax p = some (.error .eof, []) ∨
          readArrayAlloc allocMax p = some (.error .unexpectedEOF, [])) ∧
        (readArrayAlloc allocMax p = some (.error .unexpectedEOF, []) ↔
          ∃ pre a post j, args = pre ++ a :: post ∧ 0 < j ∧ j < a.length ∧
            p = commandHeader args.length ++ encodeBulks pre ++ bulkHeader a ++ a.take j)) := by
  refine ⟨rfl, ?_, ?_⟩
  · intro u now store stream rest h
    simp only [connStep, h, if_true]
  · intro args p q hmn hm hpq hq
    have hn := canAlloc_elems_lt allocMax _ hmn
    have h : ∀ a ∈ args, a.length < 2 ^ 63 := fun a ha => canAlloc_lt allocMax _ (hm a ha)
    rw [readArrayAlloc_of_part allocMax args p q hmn hm hpq]
    have cut : (∃ pre a post j, args = pre ++ a :: post ∧ 0 < j ∧ j < a.length ∧
        p = commandHeader args.length ++ encodeBulks pre ++ bulkHeader a ++ a.take j) →
        readArray p = (.error .unexpectedEOF, []) := by
      rintro ⟨pre, a, post, j, hargs, h0, hj, hp⟩
      rw [hp, hargs]
      rw [hargs] at hn h
      exact readArray_cut_in_payload pre a post j hn h h0 hj
    rcases readArray_truncated args p q hn h hpq hq with h1 | h2
    · refine ⟨Or.inl (by rw [h1]), ?_, fun hx => by rw [cut hx]⟩
      intro h3
      rw [h1] at h3
      simp at h3
    · exact ⟨Or.inr (by rw [cut h2]), fun _ => h2, fun hx => by rw [cut hx]⟩

/-- Witness of C7 (amended): the request `abc` cut after the second byte of
its payload, with room for allocations of one mebibyte. -/
theorem readArray_EOF_cases_witness :
    (readArrayAlloc 1048576 (lit "*1\r\n$3\r\nab") = some (.error .eof, []) ∨
      readArrayAlloc 1048576 (lit "*1\r\n$3\r\nab") = some (.error .unexpectedEOF, [])) ∧
    (readArrayAlloc 1048576 (lit "*1\r\n$3\r\nab") = some (.error .unexpectedEOF, []) ↔
      ∃ pre a post j, [lit "abc"] = pre ++ a :: post ∧ 0 < j ∧ j < a.length ∧
        lit "*1\r\n$3\r\nab"
          = commandHeader [lit "abc"].length ++ encodeBulks pre ++ bulkHeader a ++ a.take j) :=
  (readArray_EOF_cases 1048576).2.2 [lit "abc"] (lit "*1\r\n$3\r\nab") (lit "c\r\n")
    (by decide) (by decide) (by decide) (by decide)

/-! ## Malformed lengths, with the allocations -/

set_option maxRecDepth 100000 in
/-- C8, counterexample: with room for allocations of one mebibyte, after the
frame `*x\r\n$1\r\na\r\n`, whose array length is not a number, the failed
`readArray` leaves the stream at `$1\r\na\r\n`, inside the malformed frame, and
the next `readArray` call does not decode the well-formed `PING` frame that
follows; the same happens after the frame `*1\r\n$x\r\nab\r\n`, whose
bulk-string length is not a number; and for the array length
4611686018427387904, which is out of the range that can be allocated,
`readArray` returns no framing error: the allocation fails. -/
theorem bad_length_desynchronizes :
    readArrayAlloc 1048576 (lit "*x\r\n$1\r\na\r\n" ++ encodeCommand [lit "PING"])
      = some (.error (.msg (lit "invalid array length")),
          lit "$1\r\na\r\n" ++ encodeCommand [lit "PING"]) ∧
    readArrayAlloc 1048576 (lit "$1\r\na\r\n" ++ encodeCommand [lit "PING"])
      = some (.error (.msg (lit "expected '*', got '$'")),
          lit "1\r\na\r\n" ++ encodeCommand [lit "PING"]) ∧
    readArrayAlloc 1048576 (lit "*1\r\n$x\r\nab\r\n" ++ encodeCommand [lit "PING"])
      = some (.error (.msg (lit "invalid bulk string length")),
          lit "ab\r\n" ++ encodeCommand [lit "PING"]) ∧
    readArrayAlloc 1048576 (lit "ab\r\n" ++ encodeCommand [lit "PING"])
      = some (.error (.msg (lit "expected '*', got 'a'")),
          lit "b\r\n" ++ encodeCommand [lit "PING"]) ∧
    readArrayAlloc 1048576 (lit "*4611686018427387904\r\n$x\r\nPING") = none :=
  ⟨by decide, by decide, by decide, by decide, by decide⟩

/-- C8, amended: whatever the room for allocations, decoding a command frame
whose array length does not parse as an integer of the `int` range or is
negative fails with the framing error `invalid array length`; decoding a frame
whose array and earlier elements can be allocated and one of whose bulk-string
lengths does not parse as an integer of the `int` range fails with the framing
error `invalid bulk string length`; after the failed `readArray` the unread
stream starts at the first byte after the line that holds the malformed
length, whatever follows it. -/
theorem bad_length_leaves_rest (allocMax : Nat) :
    (∀ (line rest : Bytes), (∀ c ∈ line, c ≠ 10) →
      (Atoi (TrimSuffix (line ++ [10]) CRLF) = none ∨
        ∃ n, Atoi (TrimSuffix (line ++ [10]) CRLF) = some n ∧ n < 0) →
      readArrayAlloc allocMax (lit "*" ++ line ++ [10] ++ rest)
        = some (.error (.msg (lit "invalid array length")), rest)) ∧
    (∀ (pre : List Bytes) (n : Nat) (line rest : Bytes),
      pre.length < n → canAlloc allocMax (16 * n) = true →
      (∀ a ∈ pre, canAlloc allocMax a.length = true) →
      (∀ c ∈ line, c ≠ 10) → Atoi (TrimSuffix (line ++ [10]) CRLF) = none →
      readArrayAlloc allocMax
          (commandHeader n ++ encodeBulks pre ++ lit "$" ++ line ++ [10] ++ rest)
        = some (.error (.msg (lit "invalid bulk string length")), rest)) := by
  constructor
  · intro line rest hl ha
    have e1 : lit "*" ++ line ++ [10] ++ rest = (42 : Byte) :: (line ++ 10 :: rest) := by
      simp [lit, Fin.ofNat]
    have e2 := ReadString_append 10 line rest hl
    rw [e1]
    simp only [readArrayAlloc, ReadByte, ne_eq, not_true_eq_false, if_false, e2]
    rcases ha with ha | ⟨n, ha, hneg⟩
    · simp only [ha]
    · simp only [ha, hneg, if_true]
  · intro pre n line rest hlt hmn hmpre hl ha
    obtain ⟨k, hk⟩ : ∃ k, n = pre.length + (k + 1) := ⟨n - pre.length - 1, by omega⟩
    have e0 : commandHeader n ++ encodeBulks pre ++ lit "$" ++ line ++ [10] ++ rest
        = commandHeader n ++ (encodeBulks pre ++ ((36 : Byte) :: (line ++ 10 :: rest))) := by
      simp [lit, Fin.ofNat]
    have e2 := ReadString_append 10 line rest hl
    rw [e0, readArrayAlloc_ok allocMax n _ hmn, hk,
      readElemsAlloc_encodeBulks_add allocMax pre (k + 1) [] _ hmpre]
    simp only [readElemsAlloc, readBulkStringAlloc, ReadByte, ne_eq, not_true_eq_false,
      if_false, e2, ha]

set_option maxRecDepth 100000 in
/-- Witness of C8 (amended): the array length `x`, and the bulk-string length
`99999999999999999999` in the second element of a frame, with room for
allocations of one mebibyte. -/
theorem bad_length_leaves_rest_witness :
    readArrayAlloc 1048576 (lit "*" ++ lit "x\r" ++ [10] ++ lit "$1\r\na\r\n")
      = some (.error (.msg (lit "invalid array length")), lit "$1\r\na\r\n") ∧
    readArrayAlloc 1048576 (commandHeader 2 ++ encodeBulks [lit "GET"] ++ lit "$"
        ++ lit "99999999999999999999\r" ++ [10] ++ lit "k\r\n")
      = some (.error (.msg (lit "invalid bulk string length")), lit "k\r\n") :=
  ⟨(bad_length_leaves_rest 1048576).1 (lit "x\r") (lit "$1\r\na\r\n") (by decide)
      (Or.inl (by decide)),
    (bad_length_leaves_rest 1048576).2 [lit "GET"] 2 (lit "99999999999999999999\r")
      (lit "k\r\n") (by decide) (by decide) (by decide) (by decide) (by decide)⟩

/-! ## Reply frames of the dispatcher -/

theorem SingleLine_writeInteger (n : Int) : SingleLine (writeInteger n) :=
  SingleLine_tagged 58 (FormatInt n) (by decide) (countCRLF_no_CR _ (FormatInt_no_CR n))

theorem SingleLine_PONG : SingleLine (writeSimpleString (lit "PONG")) := by decide

theorem SingleLine_OK : SingleLine (writeSimpleString (lit "OK")) := by decide

theorem SingleLine_wrong_arity :
    SingleLine (writeError (lit "ERR wrong number of arguments")) := by decide

theorem SingleLine_invalid_expire : SingleLine (writeError (lit "ERR invalid expire time")) := by
  decide

theorem SingleLine_unknown : SingleLine (writeError (lit "ERR unknown command")) := by decide

theorem SingleLine_writeNull : SingleLine writeNull := by decide

/-- The replies that are one well-formed frame: a line whose only `\r\n` is its
terminator, or the bulk string of a non-empty value. -/
theorem dispatch_reply_frame (now : Time) (store : Store) (cmd : Bytes) (args : List Bytes) :
    SingleLine (dispatch now store cmd args).2 ∨
      ∃ v : Bytes, v ≠ [] ∧
        (dispatch now store cmd args).2 = lit "$" ++ FormatInt v.length ++ CRLF ++ v ++ CRLF := by
  unfold dispatch
  split
  · exact Or.inl SingleLine_PONG
  · split
    · split
      · exact Or.inl SingleLine_OK
      · exact Or.inl SingleLine_wrong_arity
    · split
      · split
        · split
          · rename_i value _
            by_cases hv : value = []
            · left
              subst hv
              exact SingleLine_writeNull
            · right
              exact ⟨value, hv, by simp only [writeBulkString, hv, if_false]⟩
          · exact Or.inl SingleLine_writeNull
        · exact Or.inl SingleLine_wrong_arity
      · split
        · split
          · split
            · exact Or.inl SingleLine_invalid_expire
            · split
              · exact Or.inl SingleLine_invalid_expire
              · exact Or.inl SingleLine_OK
          · exact Or.inl SingleLine_wrong_arity
        · split
          · split
            · exact Or.inl SingleLine_wrong_arity
            · exact Or.inl (SingleLine_writeInteger _)
          · split
            · split
              · split
                · exact Or.inl SingleLine_invalid_expire
                · split
                  · exact Or.inl SingleLine_invalid_expire
                  · split
                    · exact Or.inl (SingleLine_writeInteger 1)
                    · exact Or.inl (SingleLine_writeInteger 0)
              · exact Or.inl SingleLine_wrong_arity
            · split
              · split
                · exact Or.inl (SingleLine_writeInteger _)
                · exact Or.inl SingleLine_wrong_arity
              · exact Or.inl SingleLine_unknown

/-- C9, counterexample: the reply the dispatcher writes to `GET k` when `k`
holds the empty string is `$-1\r\n`: `writeBulkString` writes the null form,
whose length prefix is not the byte count `0`; and `writeError` copies its
text as it is, so a text that holds `\r\n` gives two `\r\n` in the output. -/
theorem reply_frame_not_always_single :
    (handleFrame id 0 ⟨[(lit "k", [])], []⟩ [lit "GET", lit "k"]).2 = lit "$-1\r\n" ∧
    writeBulkString [] = lit "$-1\r\n" ∧
    writeBulkString [] ≠ lit "$" ++ FormatInt (([] : Bytes).length) ++ CRLF ++ [] ++ CRLF ∧
    countCRLF (writeError (lit "a\r\nb")) = 2 ∧
    ¬ SingleLine (writeError (lit "a\r\nb")) :=
  ⟨by decide, by decide, by decide, by decide, by decide⟩

/-- C9, amended: `writeSimpleString` and `writeError` write one line whose only
`\r\n` is its terminator for every text that holds no `\r\n`, and
`writeInteger` does for every integer; `writeBulkString` writes a length
prefix equal to the byte count for every non-empty payload; every reply the
dispatcher sends for a framing error that `readArray` returns is one error
line `-ERR <text>\r\n` whose only `\r\n` is its terminator, the text holding a
line feed only when the unexpected byte it reports is a line feed; and every
reply the dispatcher writes for a frame with a command name is one such line
or the bulk string of a non-empty value. -/
theorem reply_frames :
    (∀ s, countCRLF s = 0 → SingleLine (writeSimpleString s)) ∧
    (∀ m, countCRLF m = 0 → SingleLine (writeError m)) ∧
    (∀ n, SingleLine (writeInteger n)) ∧
    (∀ s, s ≠ [] → writeBulkString s = lit "$" ++ FormatInt s.length ++ CRLF ++ s ++ CRLF) ∧
    (∀ (u : Bytes → Bytes) (allocMax : Nat) (now : Time) (store : Store) (stream : Bytes)
        (e : RErr) (rest : Bytes),
      readArrayAlloc allocMax stream = some (.error e, rest) → e ≠ .eof →
        connStep u allocMax now store stream
          = .next store rest (lit "-" ++ (lit "ERR " ++ e.Error) ++ CRLF) ∧
        SingleLine (lit "-" ++ (lit "ERR " ++ e.Error) ++ CRLF) ∧
        (10 ∈ e.Error → e = .msg (lit "expected '*', got '\n'") ∨
          e = .msg (lit "expected '$', got '\n'"))) ∧
    (∀ (u : Bytes → Bytes) (now : Time) (store : Store) (name : Bytes) (args : List Bytes),
      SingleLine (handleFrame u now store (name :: args)).2 ∨
        ∃ v : Bytes, v ≠ [] ∧
          (handleFrame u now store (name :: args)).2
            = lit "$" ++ FormatInt v.length ++ CRLF ++ v ++ CRLF) := by
  refine ⟨?_, ?_, ?_, ?_, ?_, ?_⟩
  · intro s h
    exact SingleLine_tagged 43 s (by decide) h
  · intro m h
    exact SingleLine_tagged 45 m (by decide) h
  · intro n
    exact SingleLine_writeInteger n
  · intro s h
    simp only [writeBulkString, h, if_false]
  · intro u allocMax now store stream e rest h hne
    have hstep : connStep u allocMax now store stream
        = .next store rest (lit "-" ++ (lit "ERR " ++ e.Error) ++ CRLF) := by
      simp only [connStep, h, hne, if_false]
      rfl
    refine ⟨hstep, ?_⟩
    have hold := readArrayAlloc_eq_some allocMax stream _ h
    rcases readArray_error stream e rest hold with hb | hb | ⟨c, hb⟩
    · have := SingleLine_BulkError e hb hne
      exact ⟨this.1, fun h10 => Or.inr (this.2 h10)⟩
    · subst hb
      decide
    · subst hb
      refine ⟨(SingleLine_expected_star c).1, ?_⟩
      intro h10
      have hc := (SingleLine_expected_star c).2 h10
      subst hc
      exact Or.inl rfl
  · intro u now store name args
    exact dispatch_reply_frame now store (ToUpper u name) args

/-- Witness of C9 (amended): the reply `-ERR invalid expire time\r\n`, and the
reply to a stream that starts with a line feed, with room for allocations of
one mebibyte. -/
theorem reply_frames_witness :
    SingleLine (writeError (lit "ERR invalid expire time")) ∧
    (connStep id 1048576 0 Store.NewStore (lit "\nPING")
        = .next Store.NewStore (lit "PING")
            (lit "-" ++ (lit "ERR " ++ (RErr.msg (lit "expected '*', got '\n'")).Error) ++ CRLF) ∧
      SingleLine (lit "-" ++ (lit "ERR " ++ (RErr.msg (lit "expected '*', got '\n'")).Error)
        ++ CRLF) ∧
      (10 ∈ (RErr.msg (lit "expected '*', got '\n'")).Error →
        RErr.msg (lit "expected '*', got '\n'") = .msg (lit "expected '*', got '\n'") ∨
        RErr.msg (lit "expected '*', got '\n'") = .msg (lit "expected '$', got '\n'"))) :=
  ⟨reply_frames.2.1 (lit "ERR invalid expire time") (by decide),
    reply_frames.2.2.2.2.1 id 1048576 0 Store.NewStore (lit "\nPING")
      (.msg (lit "expected '*', got '\n'")) (lit "PING") (by decide) (by decide)⟩

end Gedis
